import Mathlib

/-!
Verification of the RSML (RuSt Markup Language) compiler
(`hyprui-rsml-compiler/src/lib.rs`).

The compiler is a pure text-to-text pipeline: tokenizer, recursive-descent
parser, code generator.  Rust strings are modelled as `List Char`; the Unicode
character classes used by the source (`char::is_whitespace`,
`char::is_alphanumeric`, `char::is_uppercase`) are modelled by their ASCII
restrictions, which is exact on all ASCII input.  Fallible Rust code
(`Result<_, String>`) becomes `Except`; the two `panic!`-style aborts of the
code generator become an explicit error type.  The lazily pulled token stream
of the source is modelled by materialising the full token list (the tokenizer
has no feedback from the parser, so the streams coincide), and the parser's
recursion is driven by an explicit fuel argument so that every definition is
structurally recursive and computable; `parse` supplies a fuel budget that is
provably never exhausted on the inputs appearing in the theorems below.
-/

namespace RSML

/-- Rust `String` / `&str` values are modelled as lists of characters. -/
abbrev Str := List Char

/-- Shorthand turning a Lean string literal into the `Str` model type. -/
def str (s : String) : Str := s.data

/-- The double-quote character. -/
def dq : Char := Char.ofNat 34

/-- The single-quote character. -/
def sq : Char := Char.ofNat 39

/-- The backslash character. -/
def bslash : Char := Char.ofNat 92

/-- The opening curly-brace character. -/
def lbrace : Char := Char.ofNat 123

/-- The closing curly-brace character. -/
def rbrace : Char := Char.ofNat 125

/-- ASCII restriction of Rust `char::is_whitespace`. -/
def is_whitespace (c : Char) : Bool :=
  c == ' ' || c == '\t' || c == '\r' || c == '\n'

/-- ASCII restriction of Rust `char::is_alphabetic`. -/
def is_alphabetic (c : Char) : Bool :=
  ('A' ≤ c && c ≤ 'Z') || ('a' ≤ c && c ≤ 'z')

/-- ASCII restriction of Rust `char::is_numeric`. -/
def is_numeric (c : Char) : Bool :=
  '0' ≤ c && c ≤ '9'

/-- ASCII restriction of Rust `char::is_alphanumeric`. -/
def is_alphanumeric (c : Char) : Bool :=
  is_alphabetic c || is_numeric c

/-- ASCII restriction of Rust `char::is_uppercase`. -/
def is_uppercase (c : Char) : Bool :=
  'A' ≤ c && c ≤ 'Z'

/-- A character that may appear in an identifier
(`ch.is_alphanumeric() || ch == '_' || ch == '-'` in `read_identifier`). -/
def is_ident_char (c : Char) : Bool :=
  is_alphanumeric c || c == '_' || c == '-'

/-- Rust `str::trim_start`, restricted to ASCII whitespace. -/
def trim_start (s : Str) : Str := s.dropWhile (fun c => is_whitespace c)

/-- Rust `str::trim`, restricted to ASCII whitespace. -/
def trim (s : Str) : Str := ((trim_start s).reverse.dropWhile (fun c => is_whitespace c)).reverse

-- ============================================================================
-- DOM DATA STRUCTURES (`enum Node`, `struct Element`, `struct Attribute`)
-- ============================================================================

/-- The value of an attribute (`enum AttributeValue`). -/
inductive AttributeValue where
  | String (s : Str)
  | Expression (s : Str)
deriving DecidableEq

/-- An attribute on an RSML element (`struct Attribute`).
`value = none` denotes a boolean attribute. -/
structure Attribute where
  name : Str
  value : Option AttributeValue
deriving DecidableEq

/-- A node in the RSML DOM tree (`enum Node`).  The source's separate
`struct Element { tag_name, attributes, children, self_closing }` is inlined
into the `Element` constructor so that the tree is a single nested inductive;
the four fields appear in source order. -/
inductive Node where
  | Element (tag_name : Str) (attributes : List Attribute) (children : List Node)
      (self_closing : Bool)
  | Text (s : Str)
  | Expression (s : Str)

-- ============================================================================
-- TOKENIZER
-- ============================================================================

/-- A token in the RSML token stream (`enum Token`). -/
inductive Token where
  | OpenTag
  | CloseTag
  | SelfCloseTag
  | EndOpenTag
  | Identifier (s : Str)
  | StringLiteral (s : Str)
  | Expression (s : Str)
  | Equals
  | Whitespace
  | Eof
deriving DecidableEq

/-- `Tokenizer::read_identifier`: consume letters, digits, underscores and
hyphens; returns the identifier together with the unconsumed input. -/
def read_identifier : List Char → Str × List Char
  | [] => ([], [])
  | c :: cs =>
    if is_ident_char c then
      let (r, rest) := read_identifier cs
      (c :: r, rest)
    else ([], c :: cs)

/-- `Tokenizer::read_string_literal`, after the opening quote has been
consumed.  `q` is the quote character, the `Bool` is the `escaped` flag.
Escape sequences are preserved verbatim and the closing quote is consumed
and excluded; at end of input whatever was accumulated is returned. -/
def read_string_literal (q : Char) : List Char → Bool → Str × List Char
  | [], _ => ([], [])
  | c :: cs, escaped =>
    if escaped then
      let (r, rest) := read_string_literal q cs false
      (c :: r, rest)
    else if c == bslash then
      let (r, rest) := read_string_literal q cs true
      (c :: r, rest)
    else if c == q then ([], cs)
    else
      let (r, rest) := read_string_literal q cs false
      (c :: r, rest)

/-- `Tokenizer::read_expression`, after the opening brace has been consumed.
Arguments mirror the loop state: `brace_count` (the source uses a signed
counter that is decremented and compared with `0`; it is always at least `1`
here, so the `Nat` formulation `brace_count == 1` at a closing brace is
equivalent), `in_string`, `string_char`, `escaped`.  The closing brace of the
expression is consumed and excluded from the result. -/
def read_expression : List Char → Nat → Bool → Char → Bool → Str × List Char
  | [], _, _, _, _ => ([], [])
  | c :: cs, brace_count, in_string, string_char, escaped =>
    if escaped then
      let (r, rest) := read_expression cs brace_count in_string string_char false
      (c :: r, rest)
    else if c == bslash && in_string then
      let (r, rest) := read_expression cs brace_count in_string string_char true
      (c :: r, rest)
    else if (c == dq || c == sq) && !in_string then
      let (r, rest) := read_expression cs brace_count true c false
      (c :: r, rest)
    else if c == string_char && in_string then
      let (r, rest) := read_expression cs brace_count false string_char false
      (c :: r, rest)
    else if !in_string then
      if c == lbrace then
        let (r, rest) := read_expression cs (brace_count + 1) in_string string_char false
        (c :: r, rest)
      else if c == rbrace then
        if brace_count == 1 then ([], cs)
        else
          let (r, rest) := read_expression cs (brace_count - 1) in_string string_char false
          (c :: r, rest)
      else
        let (r, rest) := read_expression cs brace_count in_string string_char false
        (c :: r, rest)
    else
      let (r, rest) := read_expression cs brace_count in_string string_char false
      (c :: r, rest)

/-- `Tokenizer::next_token`: produce the next token and the unconsumed input.
Whitespace runs and unrecognized characters are skipped (the source's `loop`
with `continue` becomes recursion); end of input yields `Eof`. -/
def next_token : List Char → Token × List Char
  | [] => (.Eof, [])
  | c :: cs =>
    if is_whitespace c then next_token cs
    else if c == '<' then
      match cs with
      | '/' :: rest => (.EndOpenTag, rest)
      | _ => (.OpenTag, cs)
    else if c == '/' then
      match cs with
      | '>' :: rest => (.SelfCloseTag, rest)
      | _ => next_token cs
    else if c == '>' then (.CloseTag, cs)
    else if c == '=' then (.Equals, cs)
    else if c == dq || c == sq then
      let (v, rest) := read_string_literal c cs false
      (.StringLiteral v, rest)
    else if c == lbrace then
      let (v, rest) := read_expression cs 1 false dq false
      (.Expression v, rest)
    else if is_alphabetic c || c == '_' then
      let (v, rest) := read_identifier (c :: cs)
      (.Identifier v, rest)
    else next_token cs

/-- Repeated `next_token`, with explicit fuel (structural recursion).
`Eof` terminates the list and is not stored. -/
def tokenizeF : Nat → List Char → List Token
  | 0, _ => []
  | fuel + 1, cs =>
    match next_token cs with
    | (.Eof, _) => []
    | (t, rest) => t :: tokenizeF fuel rest

/-- The full token stream of an input.  `next_token` consumes at least one
character whenever it returns a non-`Eof` token, so `length + 1` units of
fuel always reach `Eof` (`tokenizeF_fuel_irrelevant` below). -/
def tokenize (cs : List Char) : List Token := tokenizeF (cs.length + 1) cs

-- ============================================================================
-- PARSER
-- ============================================================================

/-- Rust `Debug` rendering of a token, used by `expect_token`'s
`format!("Expected {:?}, found {:?}", ...)` messages (the inner `Debug`
escaping of payload strings is not reproduced; no claim depends on these
messages). -/
def token_dbg : Token → Str
  | .OpenTag => str "OpenTag"
  | .CloseTag => str "CloseTag"
  | .SelfCloseTag => str "SelfCloseTag"
  | .EndOpenTag => str "EndOpenTag"
  | .Identifier s => str "Identifier(" ++ [dq] ++ s ++ [dq] ++ str ")"
  | .StringLiteral s => str "StringLiteral(" ++ [dq] ++ s ++ [dq] ++ str ")"
  | .Expression s => str "Expression(" ++ [dq] ++ s ++ [dq] ++ str ")"
  | .Equals => str "Equals"
  | .Whitespace => str "Whitespace"
  | .Eof => str "Eof"

/-- The message of `Parser::expect_token` when the current token's
discriminant differs from the expected one. -/
def expected_msg (expected found : Token) : Str :=
  str "Expected " ++ token_dbg expected ++ str ", found " ++ token_dbg found

/-- The message of the closing-tag mismatch error in `Parser::parse_element`:
`format!("Mismatched closing tag: expected </{}>, found </{}>", tag_name, closing_name)`. -/
def mismatch_msg (tag_name closing_name : Str) : Str :=
  str "Mismatched closing tag: expected </" ++ tag_name ++ str ">, found </" ++
    closing_name ++ str ">"

/-- The message of the `Token::Eof` arm of the child loop in `parse_element`:
`format!("Unexpected EOF while parsing <{}>", tag_name)`. -/
def eof_msg (tag_name : Str) : Str :=
  str "Unexpected EOF while parsing <" ++ tag_name ++ str ">"

/-- The current token of the parser: the head of the remaining stream, or
`Eof` once the stream is exhausted (mirroring the tokenizer's behaviour at
end of input). -/
def cur (ts : List Token) : Token := ts.headD .Eof

/-- `Parser::parse_attributes`: consume `name`, `name="value"` and
`name={expr}` attributes while the lookahead is an identifier. -/
def parse_attributes : List Token → Except Str (List Attribute × List Token)
  | Token.Identifier name :: Token.Equals :: Token.StringLiteral s :: rest => do
    let (attrs, ts) ← parse_attributes rest
    pure (⟨name, some (.String s)⟩ :: attrs, ts)
  | Token.Identifier name :: Token.Equals :: Token.Expression e :: rest => do
    let (attrs, ts) ← parse_attributes rest
    pure (⟨name, some (.Expression e)⟩ :: attrs, ts)
  | Token.Identifier _ :: Token.Equals :: _ =>
    .error (str "Expected string literal or expression after =")
  | Token.Identifier name :: rest => do
    let (attrs, ts) ← parse_attributes rest
    pure (⟨name, none⟩ :: attrs, ts)
  | ts => .ok ([], ts)

/-- Error message used when the parser's fuel runs out.  It has no
counterpart in the source: the fuel budgets supplied below are proved (or
computed) to be sufficient wherever a theorem mentions `parse`. -/
def fuel_msg : Str := str "parser fuel exhausted"

mutual

/-- `Parser::parse_element`, on the materialised token stream, with fuel.
Returns the parsed node and the unconsumed tokens. -/
def parse_elementF : Nat → List Token → Except Str (Node × List Token)
  | 0, _ => .error fuel_msg
  | fuel + 1, ts =>
    match ts with
    | Token.OpenTag :: ts1 =>
      match ts1 with
      | Token.Identifier tag_name :: ts2 => do
        let (attributes, ts3) ← parse_attributes ts2
        match ts3 with
        | Token.SelfCloseTag :: ts4 =>
          .ok (.Element tag_name attributes [] true, ts4)
        | Token.CloseTag :: ts4 => do
          let (children, ts5) ← parse_childrenF fuel tag_name ts4
          match ts5 with
          | Token.EndOpenTag :: ts6 =>
            match ts6 with
            | Token.Identifier closing_name :: ts7 =>
              if closing_name ≠ tag_name then
                .error (mismatch_msg tag_name closing_name)
              else
                match ts7 with
                | Token.CloseTag :: ts8 =>
                  .ok (.Element tag_name attributes children false, ts8)
                | _ => .error (expected_msg .CloseTag (cur ts7))
            | _ => .error (str "Expected tag name in closing tag")
          | _ => .error (expected_msg .EndOpenTag (cur ts5))
        | _ => .error (expected_msg .CloseTag (cur ts3))
      | _ => .error (str "Expected tag name after <")
    | _ => .error (expected_msg .OpenTag (cur ts))

/-- The child loop of `Parser::parse_element` (`while !matches!(current,
EndOpenTag)`), returning the children in order together with the stream
whose head is the `EndOpenTag` that ended the loop.  `tag_name` is only used
for the `Eof` error message. -/
def parse_childrenF : Nat → Str → List Token → Except Str (List Node × List Token)
  | 0, _, _ => .error fuel_msg
  | fuel + 1, tag_name, ts =>
    match ts with
    | Token.EndOpenTag :: _ => .ok ([], ts)
    | Token.OpenTag :: _ => do
      let (n, ts') ← parse_elementF fuel ts
      let (ns, ts'') ← parse_childrenF fuel tag_name ts'
      pure (n :: ns, ts'')
    | Token.Expression e :: rest => do
      let (ns, ts') ← parse_childrenF fuel tag_name rest
      pure (.Expression e :: ns, ts')
    | Token.Identifier t :: rest => do
      let (ns, ts') ← parse_childrenF fuel tag_name rest
      pure (.Text t :: ns, ts')
    | [] => .error (eof_msg tag_name)
    | Token.Eof :: _ => .error (eof_msg tag_name)
    | _ :: rest => parse_childrenF fuel tag_name rest

end

/-- Fuel budget used by `parse`: sufficient for any token stream (each level
of the mutual recursion either consumes a token before recursing or descends
into a sub-element that consumes at least one). -/
def parser_fuel (ts : List Token) : Nat := 2 * ts.length + 2

/-- `Parser::parse` composed with tokenization: the whole front end.
The source's `parse` returns the root node and never looks at trailing
tokens. -/
def parse (input : Str) : Except Str Node :=
  match parse_elementF (parser_fuel (tokenize input)) (tokenize input) with
  | .ok (n, _) => .ok n
  | .error e => .error e

-- ============================================================================
-- CODE GENERATOR
-- ============================================================================

/-- The two panics of the code generator, modelled as errors:
`element.tag_name.chars().next().unwrap()` on an empty tag name, and
`panic!("Text element cannot contain other elements, but found {:?}", element)`
for an `Element` child of a `text` element (the payload carries the offending
element's fields). -/
inductive GenError where
  | EmptyTagName
  | TextContainsElement (tag_name : Str) (attributes : List Attribute)
      (children : List Node) (self_closing : Bool)

/-- `CodeGenerator::is_boolean_method`: the fixed set of parameterless
boolean-flag methods. -/
def is_boolean_method (method_name : Str) : Bool :=
  method_name == str "h_expand" || method_name == str "w_expand" ||
    method_name == str "w_fit" || method_name == str "center"

/-- One iteration of the attribute chaining loop of
`generate_element_inner` (`for attr in &element.attributes`): skip `key` on
`clickable`, otherwise extend `code` with a method call (string value),
a guarded boolean-method conditional or plain call (expression value), or a
parameterless call (no value). -/
def apply_attribute (tag_name : Str) (code : Str) (attr : Attribute) : Str :=
  if attr.name == str "key" && tag_name == str "clickable" then code
  else
    match attr.value with
    | some (.String s) =>
      code ++ str "." ++ attr.name ++ str "(" ++ [dq] ++ s ++ [dq] ++ str ")"
    | some (.Expression e) =>
      if is_boolean_method attr.name then
        str "if " ++ e ++ str " \x7b " ++ code ++ str "." ++ attr.name ++
          str "() \x7d else \x7b " ++ code ++ str " \x7d"
      else
        code ++ str "." ++ attr.name ++ str "(" ++ e ++ str ")"
    | none => code ++ str "." ++ attr.name ++ str "()"

/-- The whole attribute chaining loop of `generate_element_inner`. -/
def apply_attributes (tag_name : Str) (code : Str) (attributes : List Attribute) : Str :=
  attributes.foldl (apply_attribute tag_name) code

/-- The `fmt_args` computation of the `text` branch of
`generate_element_inner`: each `Text` child contributes its trimmed value as
a quoted literal, each `Expression` child its raw text; an `Element` child
is the generator's panic. -/
def fmt_args : List Node → Except GenError (List Str)
  | [] => .ok []
  | Node.Text t :: cs => do
    let rest ← fmt_args cs
    pure (([dq] ++ trim t ++ [dq]) :: rest)
  | Node.Expression e :: cs => do
    let rest ← fmt_args cs
    pure (e :: rest)
  | Node.Element tag attrs children sc :: _ =>
    .error (.TextContainsElement tag attrs children sc)

/-- Rust `str::repeat`. -/
def repeat_str (s : Str) (n : Nat) : Str := (List.replicate n s).flatten

/-- One props assignment line of `generate_component`
(`props.name = "v";` / `props.name = e;` / `props.name = true;`). -/
def prop_assignment (attr : Attribute) : Str :=
  match attr.value with
  | some (.String s) =>
    str "        props." ++ attr.name ++ str " = " ++ [dq] ++ s ++ [dq] ++ str ";"
  | some (.Expression e) =>
    str "        props." ++ attr.name ++ str " = " ++ e ++ str ";"
  | none => str "        props." ++ attr.name ++ str " = true;"

/-- The tag-to-constructor mapping of `generate_element_inner`
(`match element.tag_name.as_str() { "container" => ..., _ => &element.tag_name }`). -/
def element_type_of (tag_name : Str) : Str :=
  if tag_name == str "container" then str "hyprui::Container"
  else if tag_name == str "text" then str "hyprui::Text"
  else if tag_name == str "clickable" then str "hyprui::Clickable"
  else tag_name

/-- The `key` argument of the `clickable` constructor: the first `key`
attribute's value (quoted literal for a string, raw text for an expression),
or the `"default_key"` literal when the attribute is absent or valueless. -/
def clickable_key (attributes : List Attribute) : Str :=
  match (attributes.find? (fun a => a.name == str "key")).bind (fun a => a.value) with
  | some (.String s) => [dq] ++ s ++ [dq]
  | some (.Expression e) => e
  | none => str "\"default_key\""

/-- Assembly of the `clickable` constructor call and its attribute chain. -/
def clickable_assemble (tag_name : Str) (attributes : List Attribute) (child : Str) : Str :=
  apply_attributes tag_name
    (element_type_of tag_name ++ str "::new(" ++ clickable_key attributes ++ str ", " ++
      child ++ str ")") attributes

/-- Assembly of the `text` constructor call and its attribute chain:
`Text::new(format!("<placeholders>", <args>))` where the format template is
`" {} "` repeated once per child and then trimmed. -/
def text_assemble (tag_name : Str) (attributes : List Attribute) (n : Nat)
    (args : List Str) : Str :=
  apply_attributes tag_name
    (element_type_of tag_name ++ str "::new(format!(" ++ [dq] ++
      trim (repeat_str (str " \x7b\x7d ") n) ++ [dq] ++ str ", " ++
      List.intercalate (str ", ") args ++ str "))") attributes

/-- Assembly of a component call from the already-rendered children snippets
(`generate_component` after its children loop): build the props-assignment
lines, add the `props.children` line when any rendered child remains, and
fall back to `Default::default()` when there are no assignments at all. -/
def component_assemble (tag_name : Str) (attributes : List Attribute)
    (children_code : List Str) : Str :=
  let attr_assignments := attributes.map prop_assignment
  let props_assignments :=
    if children_code.isEmpty then attr_assignments
    else
      attr_assignments ++
        [str "        props.children = vec![" ++
          List.intercalate (str ", ") children_code ++ str "];"]
  if props_assignments.isEmpty then
    str "hyprui::Component::new(" ++ tag_name ++ str ", Default::default())"
  else
    str "hyprui::Component::new(" ++ tag_name ++ str ", " ++
      str "\x7b\n        let mut props = Default::default();\n" ++
      List.intercalate (str "\n") props_assignments ++
      str "\n        props\n    \x7d)"

mutual

/-- `CodeGenerator::generate_with_box`: render a node, wrapping `Element`
nodes in `Box::new(...)` when requested.  So that the mutual recursion stays
structural, the `Element` branch dispatches directly here (inlining
`generate_element_inner`'s dispatch, with the pure assembly steps factored
into the helpers above); the faithful standalone transcriptions
`generate_element_inner` / `generate_component` below are proved to agree
(`generate_with_box_Element`). -/
def generate_with_box : Node → Bool → Except GenError Str
  | Node.Element tag_name attributes children _self_closing, wrap_in_box => do
    let code ←
      match tag_name with
      | [] => (.error .EmptyTagName : Except GenError Str)
      | c0 :: rest0 =>
        if is_uppercase c0 then do
          let children_code ← component_children children
          pure (component_assemble (c0 :: rest0) attributes children_code)
        else if (c0 :: rest0) == str "clickable" then do
          let child ←
            match children with
            | child :: _ => generate_with_box child false
            | [] => pure (str "hyprui::Text::new(\"\")")
          pure (clickable_assemble (c0 :: rest0) attributes child)
        else if (c0 :: rest0) == str "text" then do
          let args ← fmt_args children
          pure (text_assemble (c0 :: rest0) attributes children.length args)
        else
          append_children
            (apply_attributes (c0 :: rest0)
              (element_type_of (c0 :: rest0) ++ str "::new()") attributes)
            children
    if wrap_in_box then pure (str "Box::new(" ++ code ++ str ")") else pure code
  | Node.Text t, _ => .ok (str "hyprui::Text::new(" ++ [dq] ++ t ++ [dq] ++ str ")")
  | Node.Expression e, _ => .ok e

/-- The children loop of `generate_component`: render each child boxed,
skipping whitespace-only text children. -/
def component_children : List Node → Except GenError (List Str)
  | [] => .ok []
  | Node.Text t :: cs =>
    if (trim t).isEmpty then component_children cs
    else do
      let s ← generate_with_box (Node.Text t) true
      let rest ← component_children cs
      pure (s :: rest)
  | c :: cs => do
    let s ← generate_with_box c true
    let rest ← component_children cs
    pure (s :: rest)

/-- The `.child(...)` loop at the end of `generate_element_inner`: append one
`.child(...)` call per child, skipping whitespace-only text children, each
child rendered unboxed. -/
def append_children (code : Str) : List Node → Except GenError Str
  | [] => .ok code
  | Node.Text t :: cs =>
    if (trim t).isEmpty then append_children code cs
    else do
      let child_code ← generate_with_box (Node.Text t) false
      append_children (code ++ str ".child(" ++ child_code ++ str ")") cs
  | c :: cs => do
    let child_code ← generate_with_box c false
    append_children (code ++ str ".child(" ++ child_code ++ str ")") cs

end

/-- `CodeGenerator::generate_component`: `Component::new(Tag, props)` with a
`Default::default()`-based props block; whitespace-only text children are
skipped; a `children` field is added only when some rendered child remains;
with no assignments at all, `Default::default()` is passed directly. -/
def generate_component (tag_name : Str) (attributes : List Attribute)
    (children : List Node) : Except GenError Str := do
  let attr_assignments := attributes.map prop_assignment
  let props_assignments ←
    if children.isEmpty then pure attr_assignments
    else do
      let children_code ← component_children children
      if children_code.isEmpty then pure attr_assignments
      else
        pure (attr_assignments ++
          [str "        props.children = vec![" ++
            List.intercalate (str ", ") children_code ++ str "];"])
  if props_assignments.isEmpty then
    pure (str "hyprui::Component::new(" ++ tag_name ++ str ", Default::default())")
  else
    pure (str "hyprui::Component::new(" ++ tag_name ++ str ", " ++
      str "\x7b\n        let mut props = Default::default();\n" ++
      List.intercalate (str "\n") props_assignments ++
      str "\n        props\n    \x7d)")

/-- `CodeGenerator::generate_element_inner`, on the element's four fields.
An uppercase first letter of the tag dispatches to `generate_component`; a
`clickable` element gets the two-argument constructor whose key is
`clickable_key` and whose child is the first child rendered unboxed (an
empty text literal when there are no children); a `text` element gets the
single-argument `format!` constructor over `fmt_args`; any other lowercase
tag gets a zero-argument constructor.  The attribute chaining loop and, for
tags other than `clickable` and `text`, the `.child(...)` loop, are factored
into `apply_attributes` / `append_children` / the `*_assemble` helpers. -/
def generate_element_inner (tag_name : Str) (attributes : List Attribute)
    (children : List Node) (_self_closing : Bool) : Except GenError Str :=
  match tag_name with
  | [] => .error .EmptyTagName
  | c0 :: rest0 =>
    if is_uppercase c0 then generate_component (c0 :: rest0) attributes children
    else if (c0 :: rest0) == str "clickable" then do
      let child ←
        match children with
        | child :: _ => generate_with_box child false
        | [] => pure (str "hyprui::Text::new(\"\")")
      pure (clickable_assemble (c0 :: rest0) attributes child)
    else if (c0 :: rest0) == str "text" then do
      let args ← fmt_args children
      pure (text_assemble (c0 :: rest0) attributes children.length args)
    else
      append_children
        (apply_attributes (c0 :: rest0)
          (element_type_of (c0 :: rest0) ++ str "::new()") attributes)
        children

/-- `CodeGenerator::generate`: the generator's entry point (boxed). -/
def generate (node : Node) : Except GenError Str := generate_with_box node true

-- ============================================================================
-- CLAIM-SIDE DEFINITIONS (spec vocabulary)
-- ============================================================================

/-- The loop state of the spec's brace-depth scan over expression text:
depth counter, the in-a-nested-string flag with its opening quote character,
and the pending-escape flag (mirroring the state variables of
`read_expression`). -/
structure ExpSt where
  brace_count : Nat
  in_string : Bool
  string_char : Char
  escaped : Bool
deriving DecidableEq

/-- One character of the spec's brace-depth scan, with exactly the branch
structure of `read_expression`; `none` means this character would close the
expression (depth reached zero at a closing brace outside a string). -/
def expStep (st : ExpSt) (c : Char) : Option ExpSt :=
  if st.escaped then some { st with escaped := false }
  else if c == bslash && st.in_string then some { st with escaped := true }
  else if (c == dq || c == sq) && !st.in_string then
    some { st with in_string := true, string_char := c }
  else if c == st.string_char && st.in_string then some { st with in_string := false }
  else if !st.in_string then
    if c == lbrace then some { st with brace_count := st.brace_count + 1 }
    else if c == rbrace then
      if st.brace_count == 1 then none
      else some { st with brace_count := st.brace_count - 1 }
    else some st
  else some st

/-- The spec's brace-depth scan over a whole string; `none` when some prefix
already closes the expression. -/
def scanExp : List Char → ExpSt → Option ExpSt
  | [], st => some st
  | c :: cs, st =>
    match expStep st c with
    | none => none
    | some st' => scanExp cs st'

/-- The scan state at the opening brace: depth `1`, outside any string. -/
def expInit : ExpSt := ⟨1, false, dq, false⟩

/-- The claim's notion of balanced braces for expression text `E`: counting
braces from depth `1` (and not counting braces inside nested string
literals), the depth never reaches `0` inside `E` and is back to `1` at the
end of `E`. -/
def balanced_braces (E : Str) : Bool :=
  match scanExp E expInit with
  | some st => st.brace_count == 1
  | none => false

/-- Every string literal opened inside the expression text is closed again
before the end (the scan does not end inside a nested string). -/
def closed_strings (E : Str) : Bool :=
  match scanExp E expInit with
  | some st => !st.in_string
  | none => false

/-- Whether a node is an `Element`. -/
def is_element_node : Node → Bool
  | Node.Element _ _ _ _ => true
  | _ => false

/-- The claim's description of one text-element child's contribution to the
format arguments: a `Text` child contributes its trimmed value as a quoted
literal, an `Expression` child its raw expression text (an `Element` child
is the failure case and contributes nothing). -/
def text_child_contribution : Node → Str
  | Node.Text t => [dq] ++ trim t ++ [dq]
  | Node.Expression e => e
  | Node.Element _ _ _ _ => []

/-- Whether a computation of the generator's error monad succeeded. -/
def isOkB {α : Type} : Except GenError α → Bool
  | .ok _ => true
  | .error _ => false

mutual

/-- The claim's failure pattern, read over the whole tree: some `text`
element anywhere in the tree has an `Element` child. -/
def contains_bad_text : Node → Bool
  | Node.Element t _ c _ =>
    (t == str "text" && c.any is_element_node) || contains_bad_text_list c
  | Node.Text _ => false
  | Node.Expression _ => false

/-- `contains_bad_text` over a child list. -/
def contains_bad_text_list : List Node → Bool
  | [] => false
  | ch :: cs => contains_bad_text ch || contains_bad_text_list cs

end

mutual

/-- The amended failure pattern: a failure inside the region of the tree the
generator actually visits.  An element with an empty tag name fails
immediately; a component (uppercase tag) visits all its children; a
`clickable` element visits only its first child; a `text` element fails if
any of its children is an `Element` (and visits nothing deeper); any other
element visits all its children (whitespace-only text children are skipped,
but a text node cannot fail anyway). -/
def visited_bad : Node → Bool
  | Node.Element t _ c _ =>
    match t with
    | [] => true
    | c0 :: r0 =>
      if is_uppercase c0 then visited_bad_list c
      else if (c0 :: r0) == str "clickable" then visited_bad_head c
      else if (c0 :: r0) == str "text" then c.any is_element_node
      else visited_bad_list c
  | Node.Text _ => false
  | Node.Expression _ => false

/-- `visited_bad` of the first child, if any. -/
def visited_bad_head : List Node → Bool
  | [] => false
  | ch :: _ => visited_bad ch

/-- `visited_bad` over a child list. -/
def visited_bad_list : List Node → Bool
  | [] => false
  | ch :: cs => visited_bad ch || visited_bad_list cs

end

/-- Whether a node is a whitespace-only text node (skipped wherever children
are iterated for child insertion or props aggregation). -/
def is_ws_text : Node → Bool
  | Node.Text t => (trim t).isEmpty
  | _ => false

/-- The spec's generic attribute-to-method-call translation: a string value
appends `.name("v")`, an expression value appends a conditional for a
boolean-flag method and a direct `.name(e)` call otherwise, and a valueless
attribute appends `.name()`. -/
def attr_method_call (code : Str) (attr : Attribute) : Str :=
  match attr.value with
  | some (.String s) =>
    code ++ str "." ++ attr.name ++ str "(" ++ [dq] ++ s ++ [dq] ++ str ")"
  | some (.Expression e) =>
    if is_boolean_method attr.name then
      str "if " ++ e ++ str " \x7b " ++ code ++ str "." ++ attr.name ++
        str "() \x7d else \x7b " ++ code ++ str " \x7d"
    else
      code ++ str "." ++ attr.name ++ str "(" ++ e ++ str ")"
  | none => code ++ str "." ++ attr.name ++ str "()"

/-- The claim's description of the `clickable` key argument: from the `key`
attribute's value — a quoted literal for a string value, the raw expression
text for an expression value, and the literal default key when no such value
is present. -/
def clickable_key_spec (attributes : List Attribute) : Str :=
  match (attributes.find? (fun a => a.name == str "key")).bind (fun a => a.value) with
  | some (.String s) => [dq] ++ s ++ [dq]
  | some (.Expression e) => e
  | none => str "\"default_key\""

/-- The claim's description of `clickable` code generation: the two-argument
constructor `Clickable::new(key, child)` where the child is the first child
rendered unboxed (an empty text-primitive placeholder with no children),
followed by the attribute chaining pass in which the `key` attribute is
skipped, and with no child-insertion calls appended. -/
def clickable_spec (attributes : List Attribute) (children : List Node) :
    Except GenError Str := do
  let child ←
    match children with
    | ch :: _ => generate_with_box ch false
    | [] => pure (str "hyprui::Text::new(\"\")")
  pure (attributes.foldl
    (fun code attr => if attr.name == str "key" then code else attr_method_call code attr)
    (str "hyprui::Clickable::new(" ++ clickable_key_spec attributes ++ str ", " ++
      child ++ str ")"))

/-- The claim's description of component code generation: a props block that
assigns each attribute as a field in order, then a `children` field built
from each non-whitespace child rendered in boxed form when such children
exist; with zero attributes and zero (non-whitespace) children, a call using
the default-value sentinel instead of a field-assignment block. -/
def component_spec (tag_name : Str) (attributes : List Attribute)
    (children : List Node) : Except GenError Str := do
  let rendered ← (children.filter (fun ch => !is_ws_text ch)).mapM
    (fun ch => generate_with_box ch true)
  let assignments := attributes.map prop_assignment ++
    (if rendered.isEmpty then []
     else
       [str "        props.children = vec![" ++
         List.intercalate (str ", ") rendered ++ str "];"])
  pure (if assignments.isEmpty then
      str "hyprui::Component::new(" ++ tag_name ++ str ", Default::default())"
    else
      str "hyprui::Component::new(" ++ tag_name ++ str ", " ++
        str "\x7b\n        let mut props = Default::default();\n" ++
        List.intercalate (str "\n") assignments ++ str "\n        props\n    \x7d)")

/-- A string that the tokenizer reads as one `Identifier` token: nonempty,
starting with a letter or underscore, all characters identifier characters. -/
def is_identifier_str (s : Str) : Bool :=
  match s with
  | [] => false
  | c :: _ => (is_alphabetic c || c == '_') && s.all is_ident_char

mutual

/-- Every element of the tree has an identifier-shaped (in particular
nonempty, letter-or-underscore-initial) tag name. -/
def all_tags_ok : Node → Bool
  | Node.Element t _ c _ => is_identifier_str t && all_tags_ok_list c
  | Node.Text _ => true
  | Node.Expression _ => true

/-- `all_tags_ok` over a child list. -/
def all_tags_ok_list : List Node → Bool
  | [] => true
  | ch :: cs => all_tags_ok ch && all_tags_ok_list cs

end

/-- Every `Identifier` token in the stream is identifier-shaped (the
tokenizer's output invariant, carried through the parser). -/
def tokens_ok (ts : List Token) : Prop :=
  ∀ s : Str, Token.Identifier s ∈ ts → is_identifier_str s = true

-- ============================================================================
-- THEOREMS
-- ============================================================================

/-- A character beginning an identifier token is none of the tokenizer's
special characters (the `next_token` match arms preceding the identifier
arm). -/
theorem ident_start_not_special {c : Char} (h : (is_alphabetic c || c == '_') = true) :
    is_whitespace c = false ∧ (c == '<') = false ∧ (c == '/') = false ∧
      (c == '>') = false ∧ (c == '=') = false ∧ (c == dq) = false ∧
      (c == sq) = false ∧ (c == lbrace) = false := by
  refine ⟨?_, ?_, ?_, ?_, ?_, ?_, ?_, ?_⟩
  · by_contra hw
    have hw' : is_whitespace c = true := by revert hw; cases is_whitespace c <;> simp
    simp only [is_whitespace, Bool.or_eq_true, beq_iff_eq] at hw'
    rcases hw' with ((h' | h') | h') | h' <;> subst h' <;> exact absurd h (by decide)
  · by_contra hb
    have : c = '<' := eq_of_beq (by revert hb; cases (c == '<') <;> simp)
    subst this; exact absurd h (by decide)
  · by_contra hb
    have : c = '/' := eq_of_beq (by revert hb; cases (c == '/') <;> simp)
    subst this; exact absurd h (by decide)
  · by_contra hb
    have : c = '>' := eq_of_beq (by revert hb; cases (c == '>') <;> simp)
    subst this; exact absurd h (by decide)
  · by_contra hb
    have : c = '=' := eq_of_beq (by revert hb; cases (c == '=') <;> simp)
    subst this; exact absurd h (by decide)
  · by_contra hb
    have : c = dq := eq_of_beq (by revert hb; cases (c == dq) <;> simp)
    subst this; exact absurd h (by decide)
  · by_contra hb
    have : c = sq := eq_of_beq (by revert hb; cases (c == sq) <;> simp)
    subst this; exact absurd h (by decide)
  · by_contra hb
    have : c = lbrace := eq_of_beq (by revert hb; cases (c == lbrace) <;> simp)
    subst this; exact absurd h (by decide)

/-- `read_identifier` consumes exactly an identifier-character prefix. -/
theorem read_identifier_append {s : List Char} (rest : List Char)
    (hs : s.all is_ident_char = true)
    (hr : rest = [] ∨ is_ident_char (rest.headD ' ') = false) :
    read_identifier (s ++ rest) = (s, rest) := by
  induction s with
  | nil =>
    cases rest with
    | nil => rfl
    | cons r rs =>
      rcases hr with h | h
      · exact absurd h (by simp)
      · simp only [List.headD_cons] at h
        simp [read_identifier, h]
  | cons c cs ih =>
    simp only [List.all_cons, Bool.and_eq_true] at hs
    have := ih hs.2
    simp [read_identifier, hs.1, this]

/-- `read_identifier` never leaves more input than it was given. -/
theorem read_identifier_le (l : List Char) :
    (read_identifier l).2.length ≤ l.length := by
  induction l with
  | nil => simp [read_identifier]
  | cons c cs ih =>
    by_cases h : is_ident_char c = true <;> simp [read_identifier, h] <;> omega

/-- `read_string_literal` consumes the value up to the closing quote when the
value contains neither the quote character nor the escape character. -/
theorem read_string_literal_append {q : Char} {s : List Char} (rest : List Char)
    (hq : (q == bslash) = false)
    (hs : s.all (fun c => !(c == q) && !(c == bslash)) = true) :
    read_string_literal q (s ++ q :: rest) false = (s, rest) := by
  induction s with
  | nil => simp [read_string_literal, hq, beq_self_eq_true]
  | cons c cs ih =>
    simp only [List.all_cons, Bool.and_eq_true, Bool.not_eq_eq_eq_not, Bool.not_true] at hs
    obtain ⟨⟨h1, h2⟩, h3⟩ := hs
    simp only [List.cons_append, read_string_literal, h1, h2, Bool.false_eq_true, if_false,
      List.append_eq, ih h3]

/-- `read_string_literal` never leaves more input than it was given. -/
theorem read_string_literal_le (q : Char) (l : List Char) (e : Bool) :
    (read_string_literal q l e).2.length ≤ l.length := by
  induction l generalizing e with
  | nil => simp [read_string_literal]
  | cons c cs ih =>
    simp only [read_string_literal]
    split_ifs <;> simp <;> first
      | exact le_trans (ih _) (Nat.le_succ _)
      | omega

/-- `read_expression` never leaves more input than it was given. -/
theorem read_expression_le (l : List Char) (bc : Nat) (instr : Bool) (sc : Char) (esc : Bool) :
    (read_expression l bc instr sc esc).2.length ≤ l.length := by
  induction l generalizing bc instr sc esc with
  | nil => simp [read_expression]
  | cons c cs ih =>
    simp only [read_expression]
    split_ifs <;> simp <;> first
      | exact le_trans (ih _ _ _ _) (Nat.le_succ _)
      | omega

/-- On nonempty input, `next_token` always consumes at least one character
(on empty input it returns `Eof` without consuming). -/
theorem next_token_consumes (cs : List Char) (h : 0 < cs.length) :
    (next_token cs).2.length < cs.length := by
  induction cs with
  | nil => simp at h
  | cons c cs ih =>
    rw [next_token.eq_def]
    dsimp only
    split_ifs with h1 h2 h3 h4 h5 h6 h7 h8
    · cases cs with
      | nil => simp [next_token]
      | cons d ds => exact lt_trans (ih (by simp)) (by simp)
    · cases cs with
      | nil => simp
      | cons d ds =>
        split
        · simp_all
          omega
        · simp
    · cases cs with
      | nil => simp [next_token]
      | cons d ds =>
        split
        · simp_all
          omega
        · exact lt_trans (ih (by simp)) (by simp)
    · simp
    · simp
    · have hle := read_string_literal_le c cs false
      rcases hX : read_string_literal c cs false with ⟨v, rest⟩
      rw [hX] at hle
      simpa using Nat.lt_succ_of_le hle
    · have hle := read_expression_le cs 1 false dq false
      rcases hX : read_expression cs 1 false dq false with ⟨v, rest⟩
      rw [hX] at hle
      simpa using Nat.lt_succ_of_le hle
    · have h9 : is_ident_char c = true := by
        rcases Bool.or_eq_true _ _ |>.mp h8 with ha | hu
        · simp [is_ident_char, is_alphanumeric, ha]
        · simp [is_ident_char, hu]
      rw [read_identifier.eq_def]
      dsimp only
      rw [if_pos h9]
      rcases hY : read_identifier cs with ⟨v2, rest2⟩
      have hs := read_identifier_le cs
      rw [hY] at hs
      simpa using Nat.lt_succ_of_le hs
    · cases cs with
      | nil => simp [next_token]
      | cons d ds => exact lt_trans (ih (by simp)) (by simp)

/-- Any fuel of at least `length + 1` gives the same token stream as
`tokenize` (the canonical budget). -/
theorem tokenizeF_stable :
    ∀ (n : Nat) (cs : List Char) (fuel : Nat), cs.length ≤ n →
      cs.length + 1 ≤ fuel → tokenizeF fuel cs = tokenize cs := by
  intro n
  induction n with
  | zero =>
    intro cs fuel h1 h2
    have hcs : cs = [] := List.length_eq_zero.mp (Nat.le_zero.mp h1)
    subst hcs
    cases fuel with
    | zero => omega
    | succ f => rfl
  | succ n ih =>
    intro cs fuel h1 h2
    cases fuel with
    | zero => omega
    | succ f =>
      rw [tokenize, tokenizeF, tokenizeF]
      rcases hnt : next_token cs with ⟨t, rest⟩
      by_cases ht : t = Token.Eof
      · subst ht; rfl
      · have hcs : 0 < cs.length := by
          rcases cs with _ | ⟨c, cs'⟩
          · simp only [next_token, Prod.mk.injEq] at hnt
            exact absurd hnt.1.symm ht
          · simp
        have hlt := next_token_consumes cs hcs
        rw [hnt] at hlt
        simp only at hlt
        have e1 : tokenizeF f rest = tokenize rest := ih rest f (by omega) (by omega)
        have e2 : tokenizeF cs.length rest = tokenize rest := ih rest cs.length (by omega) (by omega)
        cases t <;> first
          | exact absurd rfl ht
          | (dsimp only; rw [e1, e2])

/-- Unfolding one tokenizer step: a non-`Eof` `next_token` result starts the
token stream. -/
theorem tokenize_cons {cs : List Char} {t : Token} {rest : List Char}
    (hnt : next_token cs = (t, rest)) (ht : t ≠ .Eof) :
    tokenize cs = t :: tokenize rest := by
  have hcs : 0 < cs.length := by
    rcases cs with _ | ⟨c, cs'⟩
    · simp only [next_token, Prod.mk.injEq] at hnt
      exact absurd hnt.1.symm ht
    · simp
  have hlt := next_token_consumes cs hcs
  rw [hnt] at hlt
  simp only at hlt
  rw [tokenize, tokenizeF, hnt]
  have e2 : tokenizeF cs.length rest = tokenize rest :=
    tokenizeF_stable rest.length rest cs.length (le_refl _) (by omega)
  cases t <;> first
    | exact absurd rfl ht
    | (dsimp only; rw [e2])

/-- Tokenization at `Eof`. -/
theorem tokenize_eof {cs : List Char} {rest : List Char}
    (hnt : next_token cs = (.Eof, rest)) : tokenize cs = [] := by
  rw [tokenize, tokenizeF, hnt]

/-- The tokenizer skips a leading whitespace character. -/
theorem next_token_ws {c : Char} (cs : List Char) (h : is_whitespace c = true) :
    next_token (c :: cs) = next_token cs := by
  rw [next_token.eq_def]
  dsimp only
  rw [if_pos h]

/-- Tokenization skips a leading whitespace character. -/
theorem tokenize_ws {c : Char} (cs : List Char) (h : is_whitespace c = true) :
    tokenize (c :: cs) = tokenize cs := by
  rcases hnt : next_token cs with ⟨t, rest⟩
  by_cases ht : t = Token.Eof
  · subst ht
    have hnt2 : next_token (c :: cs) = (Token.Eof, rest) := by
      rw [next_token_ws cs h, hnt]
    rw [tokenize_eof hnt, tokenize_eof hnt2]
  · rw [tokenize_cons hnt ht, tokenize_cons (next_token_ws cs h ▸ hnt) ht]

/-- Binding an `ok` value in the generator's error monad. -/
theorem gen_ok_bind {α β : Type} (a : α) (f : α → Except GenError β) :
    (Except.ok a : Except GenError α) >>= f = f a := rfl

/-- The component children loop on an empty list. -/
theorem component_children_nil : component_children [] = .ok [] := by
  rw [component_children.eq_def]

/-- `generate_component` is the children loop followed by the pure props
assembly (the source interleaves them; the early `children.isEmpty` branch
coincides with `component_children [] = ok []`). -/
theorem generate_component_eq (t : Str) (a : List Attribute) (c : List Node) :
    generate_component t a c =
      (component_children c).bind (fun cc => pure (component_assemble t a cc)) := by
  cases c with
  | nil =>
    rw [component_children_nil]
    simp only [generate_component, component_assemble, gen_ok_bind, pure_bind,
      List.isEmpty_nil, if_true, Except.bind]
    by_cases h : (List.map prop_assignment a).isEmpty = true <;> simp [h]
  | cons ch cs =>
    simp only [generate_component, component_assemble, List.isEmpty_cons]
    cases hcc : component_children (ch :: cs) with
    | error e => rfl
    | ok cc =>
      simp only [Except.bind, gen_ok_bind, pure_bind]
      by_cases h : cc.isEmpty = true <;>
        simp only [h, if_true, Bool.false_eq_true, if_false] <;>
        by_cases h2 : (List.map prop_assignment a).isEmpty = true <;> simp [h2]

set_option maxHeartbeats 2000000 in
/-- The `Element` branch of `generate_with_box` agrees with the standalone
`generate_element_inner` (the source's `generate_with_box` calls
`generate_element_inner` and then boxes; the inlined mutual definition above
is the same computation). -/
theorem generate_with_box_Element (t : Str) (a : List Attribute) (c : List Node) (sc w : Bool) :
    generate_with_box (Node.Element t a c sc) w =
      (generate_element_inner t a c sc).bind (fun code =>
        if w then pure (str "Box::new(" ++ code ++ str ")") else pure code) := by
  rw [generate_with_box.eq_def]
  cases t with
  | nil => rfl
  | cons c0 r0 =>
    simp only [generate_element_inner]
    by_cases h1 : is_uppercase c0 = true
    · simp only [h1, if_true, generate_component_eq]
      cases component_children c with
      | error e => rfl
      | ok cc => rfl
    · simp only [h1, Bool.false_eq_true, if_false]
      by_cases h2 : ((c0 :: r0) == str "clickable") = true
      · simp only [h2, if_true]
        cases c with
        | nil => rfl
        | cons ch cs =>
          dsimp only
          cases generate_with_box ch false with
          | error e => rfl
          | ok s => rfl
      · simp only [h2, Bool.false_eq_true, if_false]
        by_cases h3 : ((c0 :: r0) == str "text") = true
        · simp only [h3, if_true]
          cases fmt_args c with
          | error e => rfl
          | ok args => rfl
        · simp only [h3, Bool.false_eq_true, if_false]
          cases append_children
              (apply_attributes (c0 :: r0)
                (element_type_of (c0 :: r0) ++ str "::new()") a) c with
          | error e => rfl
          | ok s => rfl


theorem read_expression_append :
    ∀ (E : List Char) (st st' : ExpSt) (rest : List Char),
      scanExp E st = some st' →
      read_expression (E ++ rest) st.brace_count st.in_string st.string_char st.escaped =
        (E ++ (read_expression rest st'.brace_count st'.in_string st'.string_char st'.escaped).1,
         (read_expression rest st'.brace_count st'.in_string st'.string_char st'.escaped).2) := by
  intro E
  induction E with
  | nil =>
    intro st st' rest h
    simp only [scanExp, Option.some.injEq] at h
    subst h
    simp
  | cons c E' ih =>
    intro st st' rest h
    obtain ⟨bc, instr, sc, esc⟩ := st
    simp only [scanExp] at h
    rcases hstep : expStep ⟨bc, instr, sc, esc⟩ c with _ | st2
    · rw [hstep] at h; exact absurd h (by simp)
    · rw [hstep] at h
      have IH := ih st2 st' rest h
      simp only [expStep] at hstep
      rw [List.cons_append, read_expression.eq_def]
      dsimp only at hstep ⊢
      split_ifs at hstep ⊢ <;>
        simp only [Option.some.injEq] at hstep <;>
        (try subst hstep) <;>
        simp_all [List.cons_append]

theorem read_expression_close (sc : Char) (rest : List Char) :
    read_expression (rbrace :: rest) 1 false sc false = ([], rest) := by
  rw [read_expression.eq_def]
  simp only [Bool.and_false, Bool.not_false]
  simp
  rw [if_neg (by decide : ¬(rbrace = dq ∨ rbrace = RSML.sq)), if_neg (by decide : ¬rbrace = lbrace)]

theorem expStep_esc {st st' : ExpSt} {c : Char} (h : expStep st c = some st')
    (hinv : st.escaped = true → st.in_string = true) :
    st'.escaped = true → st'.in_string = true := by
  obtain ⟨bc, instr, sc, esc⟩ := st
  simp only [expStep] at h
  split_ifs at h <;> simp only [Option.some.injEq] at h <;> subst h <;> simp_all

theorem scanExp_esc :
    ∀ (E : List Char) (st st' : ExpSt), scanExp E st = some st' →
      (st.escaped = true → st.in_string = true) →
      (st'.escaped = true → st'.in_string = true) := by
  intro E
  induction E with
  | nil => intro st st' h hinv; simp only [scanExp, Option.some.injEq] at h; subst h; exact hinv
  | cons c E' ih =>
    intro st st' h hinv
    simp only [scanExp] at h
    rcases hstep : expStep st c with _ | st2
    · rw [hstep] at h; exact absurd h (by simp)
    · rw [hstep] at h
      exact ih st2 st' h (expStep_esc hstep hinv)

theorem read_expression_balanced {E : List Char} {st' : ExpSt} (rest : List Char)
    (h : scanExp E expInit = some st') (hbc : st'.brace_count = 1)
    (hstr : st'.in_string = false) :
    read_expression (E ++ rbrace :: rest) 1 false dq false = (E, rest) := by
  have hesc : st'.escaped = false := by
    rcases hE : st'.escaped with _ | _
    · rfl
    · have := scanExp_esc E expInit st' h (by simp [expInit]) hE
      rw [hstr] at this
      exact absurd this (by simp)
  have happ := read_expression_append E expInit st' (rbrace :: rest) h
  simp only [expInit] at happ
  rw [happ, hbc, hstr, hesc, read_expression_close]
  simp

theorem next_token_expr {E : List Char} {st' : ExpSt} (rest : List Char)
    (h : scanExp E expInit = some st') (hbc : st'.brace_count = 1)
    (hstr : st'.in_string = false) :
    next_token (lbrace :: (E ++ rbrace :: rest)) = (.Expression E, rest) := by
  rw [next_token.eq_def]
  dsimp only
  rw [if_neg (by decide : ¬(is_whitespace lbrace = true))]
  rw [if_neg (by decide : ¬((lbrace == '<') = true))]
  rw [if_neg (by decide : ¬((lbrace == '/') = true))]
  rw [if_neg (by decide : ¬((lbrace == '>') = true))]
  rw [if_neg (by decide : ¬((lbrace == '=') = true))]
  rw [if_neg (by decide : ¬((lbrace == dq || lbrace == sq) = true))]
  rw [if_pos (by decide : (lbrace == lbrace) = true)]
  rw [read_expression_balanced rest h hbc hstr]

theorem quote_not_special {q : Char} (hq : (q == dq || q == sq) = true) :
    is_whitespace q = false ∧ (q == '<') = false ∧ (q == '/') = false ∧
      (q == '>') = false ∧ (q == '=') = false ∧ (q == bslash) = false := by
  rcases Bool.or_eq_true _ _ |>.mp hq with h | h
  · have : q = dq := eq_of_beq h
    subst this
    refine ⟨by decide, by decide, by decide, by decide, by decide, by decide⟩
  · have : q = sq := eq_of_beq h
    subst this
    refine ⟨by decide, by decide, by decide, by decide, by decide, by decide⟩

theorem next_token_ident {c : Char} {s' : List Char} (rest : List Char)
    (hc : (is_alphabetic c || c == '_') = true)
    (hs : (c :: s').all is_ident_char = true)
    (hr : rest = [] ∨ is_ident_char (rest.headD ' ') = false) :
    next_token ((c :: s') ++ rest) = (.Identifier (c :: s'), rest) := by
  obtain ⟨hw, hlt, hsl, hgt, heq, hdq, hsq, hlb⟩ := ident_start_not_special hc
  rw [List.cons_append, next_token.eq_def]
  dsimp only
  rw [if_neg (by simp [hw]), if_neg (by simp [hlt]), if_neg (by simp [hsl]),
      if_neg (by simp [hgt]), if_neg (by simp [heq]), if_neg (by simp [hdq, hsq]),
      if_neg (by simp [hlb]), if_pos hc]
  rw [show (c :: (s' ++ rest)) = ((c :: s') ++ rest) from rfl]
  rw [read_identifier_append rest hs hr]

theorem next_token_string {q : Char} {s : List Char} (rest : List Char)
    (hq : (q == dq || q == sq) = true)
    (hs : s.all (fun c => !(c == q) && !(c == bslash)) = true) :
    next_token (q :: (s ++ q :: rest)) = (.StringLiteral s, rest) := by
  obtain ⟨hw, hlt, hsl, hgt, heq, hqb⟩ := quote_not_special hq
  rw [next_token.eq_def]
  dsimp only
  rw [if_neg (by simp [hw]), if_neg (by simp [hlt]), if_neg (by simp [hsl]),
      if_neg (by simp [hgt]), if_neg (by simp [heq]), if_pos hq]
  rw [read_string_literal_append rest hqb hs]

/-- C3, the claim as stated is false: the expression text made of a double
quote and the letter `a` contains no braces at all (so its braces are
balanced, and none are inside a string for the depth count), yet tokenizing
it wrapped in braces consumes the closing brace into the (unterminated)
nested string literal and stores it in the token text. -/
theorem c3_counterexample :
    balanced_braces (str "\"a") = true ∧
      tokenize (lbrace :: (str "\"a" ++ [rbrace])) =
        [Token.Expression (str "\"a" ++ [rbrace])] ∧
      tokenize (lbrace :: (str "\"a" ++ [rbrace])) ≠ [Token.Expression (str "\"a")] := by
  refine ⟨by decide, by decide, by decide⟩

/-- C3 (amended): for expression text `E` with balanced braces (braces in
nested string literals not counted) in which every opened nested string
literal is also closed, tokenizing `{E}` yields exactly the one token
`Expression E`, the text unchanged, the closing brace consumed and excluded. -/
theorem c3_brace_matching (E : Str) (hbal : balanced_braces E = true)
    (hcl : closed_strings E = true) :
    tokenize (lbrace :: (E ++ [rbrace])) = [Token.Expression E] := by
  rcases hscan : scanExp E expInit with _ | st'
  · unfold balanced_braces at hbal
    rw [hscan] at hbal
    exact absurd hbal (by simp)
  · have hbc : st'.brace_count = 1 := by
      unfold balanced_braces at hbal
      rw [hscan] at hbal
      simpa using hbal
    have hstr : st'.in_string = false := by
      unfold closed_strings at hcl
      rw [hscan] at hcl
      simpa using hcl
    have h1 := next_token_expr ([] : List Char) hscan hbc hstr
    rw [tokenize_cons h1 (by simp)]
    rfl

/-- Witness for C3 at the concrete expression text `a{b}`. -/
theorem c3_brace_matching_witness :
    tokenize (lbrace :: (str "a\x7bb\x7d" ++ [rbrace])) =
      [Token.Expression (str "a\x7bb\x7d")] :=
  c3_brace_matching (str "a\x7bb\x7d") (by decide) (by decide)


/-- C9: tokenizing a quoted literal strips the delimiting quotes but keeps
escape sequences verbatim: first, the concrete example from the spec; second,
the general escape step of `read_string_literal`, which passes the character
after a backslash (whatever it is, including the quote character) through
without terminating the literal. -/
theorem c9_string_escape_passthrough :
    tokenize (str "\"a\\\"b\"") = [Token.StringLiteral (str "a\\\"b")] ∧
    (∀ (q c : Char) (cs : List Char),
      read_string_literal q (bslash :: c :: cs) false =
        (bslash :: c :: (read_string_literal q cs false).1,
          (read_string_literal q cs false).2)) := by
  constructor
  · decide
  · intro q c cs
    rcases h : read_string_literal q cs false with ⟨r, rest⟩
    simp [read_string_literal, h]

/-- C4: a valueless `center` attribute parses with `value = none` and makes
the generator emit an unconditional parameterless `.center()` call; a
`center={flag}` attribute parses with an expression value and, because
`center` is in the fixed boolean-method set, makes the generator wrap the
call in a conditional that applies `.center()` only when the expression is
truthy and otherwise passes the receiver through unchanged. -/
theorem c4_boolean_attribute_disambiguation :
    parse_attributes (tokenize (str "center")) = .ok ([⟨str "center", none⟩], []) ∧
    parse_attributes (tokenize (str "center=\x7bflag\x7d")) =
      .ok ([⟨str "center", some (.Expression (str "flag"))⟩], []) ∧
    is_boolean_method (str "center") = true ∧
    generate_element_inner (str "x") [⟨str "center", none⟩] [] true =
      .ok (str "x::new().center()") ∧
    generate_element_inner (str "x") [⟨str "center", some (.Expression (str "flag"))⟩] [] true =
      .ok (str "if flag \x7b x::new().center() \x7d else \x7b x::new() \x7d") := by
  exact ⟨rfl, rfl, by decide, rfl, rfl⟩


theorem intercalate_cons_cons (s x y : Str) (l : List Str) :
    List.intercalate s (x :: y :: l) = x ++ s ++ List.intercalate s (y :: l) := by
  simp [List.intercalate, List.intersperse_cons_cons]

theorem fmt_args_no_element {children : List Node}
    (h : children.all (fun c => !is_element_node c) = true) :
    fmt_args children = .ok (children.map text_child_contribution) := by
  induction children with
  | nil => rfl
  | cons c cs ih =>
    simp only [List.all_cons, Bool.and_eq_true] at h
    cases c with
    | Element t a ch sc => simp [is_element_node] at h
    | Text t => simp [fmt_args, ih h.2, text_child_contribution]
    | Expression e => simp [fmt_args, ih h.2, text_child_contribution]

theorem template_shape (n : Nat) :
    ∃ ys, List.intercalate (str "  ")
        (List.replicate (n + 1) (str "\x7b\x7d")) = lbrace :: (ys ++ [rbrace]) := by
  induction n with
  | zero => exact ⟨[], by decide⟩
  | succ n ih =>
    obtain ⟨ys, hys⟩ := ih
    rw [List.replicate_succ, List.replicate_succ, intercalate_cons_cons,
      ← List.replicate_succ, hys]
    refine ⟨rbrace :: ' ' :: ' ' :: lbrace :: ys, ?_⟩
    simp only [str]
    simp
    exact ⟨by decide, by decide⟩

theorem repeat_str_shape (n : Nat) :
    repeat_str (str " \x7b\x7d ") (n + 1) =
      ' ' :: (List.intercalate (str "  ") (List.replicate (n + 1) (str "\x7b\x7d")) ++ [' ']) := by
  induction n with
  | zero => decide
  | succ n ih =>
    rw [List.replicate_succ, List.replicate_succ, intercalate_cons_cons, ← List.replicate_succ]
    have hrep : repeat_str (str " \x7b\x7d ") (n + 1 + 1) =
        str " \x7b\x7d " ++ repeat_str (str " \x7b\x7d ") (n + 1) := by
      simp [repeat_str, List.replicate_succ]
    rw [hrep, ih]
    simp [str]

theorem trim_sandwich (ys : List Char) :
    trim (' ' :: ((lbrace :: (ys ++ [rbrace])) ++ [' '])) = lbrace :: (ys ++ [rbrace]) := by
  simp only [trim, trim_start]
  rw [List.dropWhile_cons]
  rw [if_pos (by decide : ((fun c => is_whitespace c) ' ') = true)]
  rw [List.cons_append, List.dropWhile_cons]
  rw [if_neg (by decide : ¬(((fun c => is_whitespace c) lbrace) = true))]
  simp only [List.reverse_cons, List.reverse_append, List.reverse_singleton,
    List.reverse_nil, List.append_assoc, List.singleton_append, List.cons_append,
    List.nil_append]
  rw [List.dropWhile_cons]
  rw [if_pos (by decide : ((fun c => is_whitespace c) ' ') = true)]
  rw [List.dropWhile_cons]
  rw [if_neg (by decide : ¬(((fun c => is_whitespace c) rbrace) = true))]
  simp

theorem format_template (n : Nat) :
    trim (repeat_str (str " \x7b\x7d ") n) =
      List.intercalate (str "  ") (List.replicate n (str "\x7b\x7d")) := by
  cases n with
  | zero => decide
  | succ n =>
    obtain ⟨ys, hys⟩ := template_shape n
    rw [repeat_str_shape, hys, trim_sandwich]

/-- C7, the claim as stated is false on the format template: with two text
children the placeholders are joined by two spaces, not one (` {} `
repeated twice and trimmed is `{}  {}`). -/
theorem c7_counterexample :
    generate_element_inner (str "text") [] [Node.Text (str "a"), Node.Text (str "b")] false =
      .ok (str "hyprui::Text::new(format!(\"\x7b\x7d  \x7b\x7d\", \"a\", \"b\"))") ∧
    List.intercalate (str " ") [str "\x7b\x7d", str "\x7b\x7d"] ≠ str "\x7b\x7d  \x7b\x7d" := by
  exact ⟨rfl, by decide⟩

/-- C7 (amended): for every `text` element whose children are all `Text` or
`Expression` nodes, the generator emits the single-argument constructor over
one `format!` call: `Text` children contribute a trimmed quoted literal,
`Expression` children their raw expression text, and the format template has
one placeholder per child, joined by two spaces and trimmed. -/
theorem c7_text_codegen (attrs : List Attribute) (children : List Node) (sc : Bool)
    (h : children.all (fun c => !is_element_node c) = true) :
    generate_element_inner (str "text") attrs children sc =
      .ok (apply_attributes (str "text")
        (str "hyprui::Text::new(format!(" ++ [dq] ++
          List.intercalate (str "  ") (List.replicate children.length (str "\x7b\x7d")) ++
          [dq] ++ str ", " ++
          List.intercalate (str ", ") (children.map text_child_contribution) ++ str "))")
        attrs) := by
  rw [show (str "text") = 't' :: str "ext" from rfl]
  simp only [generate_element_inner]
  rw [if_neg (by decide : ¬(is_uppercase 't' = true))]
  rw [if_neg (by decide : ¬((('t' :: str "ext") == str "clickable") = true))]
  rw [if_pos (by decide : (('t' :: str "ext") == str "text") = true)]
  rw [fmt_args_no_element h]
  rw [gen_ok_bind]
  simp only [text_assemble, format_template]
  rw [show element_type_of ('t' :: str "ext") = str "hyprui::Text" from by decide]
  rw [show str "hyprui::Text" ++ str "::new(format!(" = str "hyprui::Text::new(format!(" from rfl]
  rfl

/-- Witness for C7 at a `text` element with one text and one expression
child. -/
theorem c7_text_codegen_witness :
    generate_element_inner (str "text") [] [Node.Text (str "a"), Node.Expression (str "x")] false =
      .ok (apply_attributes (str "text")
        (str "hyprui::Text::new(format!(" ++ [dq] ++
          List.intercalate (str "  ")
            (List.replicate ([Node.Text (str "a"), Node.Expression (str "x")]).length
              (str "\x7b\x7d")) ++
          [dq] ++ str ", " ++
          List.intercalate (str ", ")
            ([Node.Text (str "a"), Node.Expression (str "x")].map text_child_contribution) ++
          str "))")
        []) :=
  c7_text_codegen [] [Node.Text (str "a"), Node.Expression (str "x")] false (by decide)


theorem gen_error_bind {α β : Type} (e : GenError) (f : α → Except GenError β) :
    (Except.error e : Except GenError α) >>= f = Except.error e := rfl

theorem gen_pure_bind {α β : Type} (a : α) (f : α → Except GenError β) :
    (pure a : Except GenError α) >>= f = f a := rfl

theorem isOkB_ok {α : Type} (a : α) : isOkB (Except.ok a) = true := rfl

theorem isOkB_error {α : Type} (e : GenError) : isOkB (.error e : Except GenError α) = false := rfl

theorem isOkB_pure {α : Type} (a : α) : isOkB (pure a : Except GenError α) = true := rfl

theorem isOkB_ite {α : Type} (P : Prop) [Decidable P] (x y : Except GenError α) :
    isOkB (if P then x else y) = if P then isOkB x else isOkB y := by
  split <;> rfl

theorem generate_with_box_Text (t : Str) (b : Bool) :
    generate_with_box (Node.Text t) b =
      .ok (str "hyprui::Text::new(" ++ [dq] ++ t ++ [dq] ++ str ")") := by
  rw [generate_with_box.eq_def]

theorem generate_with_box_Expr (e : Str) (b : Bool) :
    generate_with_box (Node.Expression e) b = .ok e := by
  rw [generate_with_box.eq_def]

theorem isOkB_fmt_args (cs : List Node) :
    isOkB (fmt_args cs) = !(cs.any is_element_node) := by
  induction cs with
  | nil => rfl
  | cons c cs ih =>
    cases c with
    | Element t a ch sc => simp [fmt_args, is_element_node, isOkB]
    | Text t =>
      simp only [fmt_args, List.any_cons, is_element_node, Bool.false_or]
      cases h : fmt_args cs with
      | error e => rw [h] at ih; simpa using ih
      | ok args => rw [h] at ih; simpa using ih
    | Expression e =>
      simp only [fmt_args, List.any_cons, is_element_node, Bool.false_or]
      cases h : fmt_args cs with
      | error e2 => rw [h] at ih; simpa using ih
      | ok args => rw [h] at ih; simpa using ih

mutual

theorem c2_box (n : Node) (b : Bool) :
    isOkB (generate_with_box n b) = !visited_bad n := by
  cases n with
  | Text t => rw [generate_with_box_Text]; rfl
  | Expression e => rw [generate_with_box_Expr]; rfl
  | Element t a c sc =>
    rw [generate_with_box.eq_def]
    cases t with
    | nil => rfl
    | cons c0 r0 =>
      dsimp only
      simp only [visited_bad]
      by_cases h1 : is_uppercase c0 = true
      · simp only [h1, if_true]
        have hcc := c2_children c
        cases hx : component_children c with
        | error e =>
          rw [hx] at hcc
          simp only [hx, gen_error_bind, isOkB_error] at hcc ⊢
          exact hcc
        | ok cc =>
          rw [hx] at hcc
          simp only [isOkB_ok] at hcc
          simp only [gen_ok_bind, gen_pure_bind]
          cases b <;> simp [isOkB_pure, ← hcc]
      · simp only [h1, Bool.false_eq_true, if_false]
        by_cases h2 : ((c0 :: r0) == str "clickable") = true
        · simp only [h2, if_true]
          cases c with
          | nil =>
            simp only [visited_bad_head]
            simp only [gen_pure_bind]
            cases b <;> simp [isOkB_pure]
          | cons ch cs =>
            have hch := c2_box ch false
            simp only [visited_bad_head]
            cases hx : generate_with_box ch false with
            | error e =>
              rw [hx] at hch
              simp only [isOkB_error] at hch
              simp only [gen_error_bind, isOkB_error]
              exact hch
            | ok s =>
              rw [hx] at hch
              simp only [isOkB_ok] at hch
              simp only [gen_ok_bind, gen_pure_bind]
              cases b <;> simp [isOkB_pure, ← hch]
        · simp only [h2, Bool.false_eq_true, if_false]
          by_cases h3 : ((c0 :: r0) == str "text") = true
          · simp only [h3, if_true]
            have hf := isOkB_fmt_args c
            cases hx : fmt_args c with
            | error e =>
              rw [hx] at hf
              simp only [isOkB_error] at hf
              simp only [gen_error_bind, isOkB_error]
              exact hf
            | ok args =>
              rw [hx] at hf
              simp only [isOkB_ok] at hf
              simp only [gen_ok_bind, gen_pure_bind]
              cases b <;> simp [isOkB_pure, ← hf]
          · simp only [h3, Bool.false_eq_true, if_false]
            have ha := c2_append
              (apply_attributes (c0 :: r0)
                (element_type_of (c0 :: r0) ++ str "::new()") a) c
            cases hx : append_children
                (apply_attributes (c0 :: r0)
                  (element_type_of (c0 :: r0) ++ str "::new()") a) c with
            | error e =>
              rw [hx] at ha
              simp only [isOkB_error] at ha
              simp only [gen_error_bind, isOkB_error]
              exact ha
            | ok s =>
              rw [hx] at ha
              simp only [isOkB_ok] at ha
              simp only [gen_ok_bind]
              cases b <;> simp [isOkB_pure, ← ha]

theorem c2_children (cs : List Node) :
    isOkB (component_children cs) = !visited_bad_list cs := by
  cases cs with
  | nil => rfl
  | cons ch cs =>
    rw [component_children.eq_def]
    cases ch with
    | Text t =>
      dsimp only
      by_cases hw : (trim t).isEmpty = true
      · simp only [hw, if_true]
        simp only [visited_bad_list, visited_bad, Bool.false_or]
        exact c2_children cs
      · simp only [hw, Bool.false_eq_true, if_false]
        simp only [visited_bad_list, visited_bad, Bool.false_or]
        rw [generate_with_box_Text, gen_ok_bind]
        have := c2_children cs
        cases hx : component_children cs with
        | error e =>
          rw [hx] at this
          simp only [gen_error_bind, isOkB_error] at this ⊢
          exact this
        | ok l =>
          rw [hx] at this
          simp only [isOkB_ok] at this
          simp only [gen_ok_bind, isOkB_pure]
          exact this
    | Element t a c sc =>
      dsimp only
      have hbox := c2_box (Node.Element t a c sc) true
      simp only [visited_bad_list]
      cases hx : generate_with_box (Node.Element t a c sc) true with
      | error e =>
        rw [hx] at hbox
        simp only [isOkB_error] at hbox
        have hA : visited_bad (Node.Element t a c sc) = true := by
          cases hv : visited_bad (Node.Element t a c sc) <;> rw [hv] at hbox <;>
            simp_all
        simp [gen_error_bind, isOkB_error, hA]
      | ok s =>
        rw [hx] at hbox
        simp only [isOkB_ok] at hbox
        have hA : visited_bad (Node.Element t a c sc) = false := by
          cases hv : visited_bad (Node.Element t a c sc) <;> rw [hv] at hbox <;>
            simp_all
        simp only [gen_ok_bind, hA, Bool.false_or]
        have := c2_children cs
        cases hy : component_children cs with
        | error e =>
          rw [hy] at this
          simp only [gen_error_bind, isOkB_error] at this ⊢
          exact this
        | ok l =>
          rw [hy] at this
          simp only [isOkB_ok] at this
          simp only [gen_ok_bind, isOkB_pure]
          exact this
    | Expression e =>
      dsimp only
      simp only [visited_bad_list, visited_bad, Bool.false_or]
      rw [generate_with_box_Expr, gen_ok_bind]
      have := c2_children cs
      cases hx : component_children cs with
      | error e2 =>
        rw [hx] at this
        simp only [gen_error_bind, isOkB_error] at this ⊢
        exact this
      | ok l =>
        rw [hx] at this
        simp only [isOkB_ok] at this
        simp only [gen_ok_bind, isOkB_pure]
        exact this

theorem c2_append (code : Str) (cs : List Node) :
    isOkB (append_children code cs) = !visited_bad_list cs := by
  cases cs with
  | nil => rfl
  | cons ch cs =>
    rw [append_children.eq_def]
    cases ch with
    | Text t =>
      dsimp only
      by_cases hw : (trim t).isEmpty = true
      · simp only [hw, if_true]
        simp only [visited_bad_list, visited_bad, Bool.false_or]
        exact c2_append code cs
      · simp only [hw, Bool.false_eq_true, if_false]
        simp only [visited_bad_list, visited_bad, Bool.false_or]
        rw [generate_with_box_Text, gen_ok_bind]
        exact c2_append _ cs
    | Element t a c sc =>
      dsimp only
      have hbox := c2_box (Node.Element t a c sc) false
      simp only [visited_bad_list]
      cases hx : generate_with_box (Node.Element t a c sc) false with
      | error e =>
        rw [hx] at hbox
        simp only [isOkB_error] at hbox
        have hA : visited_bad (Node.Element t a c sc) = true := by
          cases hv : visited_bad (Node.Element t a c sc) <;> rw [hv] at hbox <;>
            simp_all
        simp [gen_error_bind, isOkB_error, hA]
      | ok s =>
        rw [hx] at hbox
        simp only [isOkB_ok] at hbox
        have hA : visited_bad (Node.Element t a c sc) = false := by
          cases hv : visited_bad (Node.Element t a c sc) <;> rw [hv] at hbox <;>
            simp_all
        simp only [gen_ok_bind, hA, Bool.false_or]
        exact c2_append _ cs
    | Expression e =>
      dsimp only
      simp only [visited_bad_list, visited_bad, Bool.false_or]
      rw [generate_with_box_Expr, gen_ok_bind]
      exact c2_append _ cs

end

/-- C2, the claim as stated is false: this tree contains a `text` element
with an `Element` child (nested as the second child of a `clickable`), yet
generation succeeds, because the generator renders only the first child of a
`clickable` and never visits the offending `text` element. -/
theorem c2_counterexample :
    contains_bad_text (Node.Element (str "clickable") [] [Node.Text (str "x"),
      Node.Element (str "text") [] [Node.Element (str "container") [] [] true] false]
      false) = true ∧
    generate (Node.Element (str "clickable") [] [Node.Text (str "x"),
      Node.Element (str "text") [] [Node.Element (str "container") [] [] true] false]
      false) =
      .ok (str "Box::new(hyprui::Clickable::new(\"default_key\", hyprui::Text::new(\"x\")))") := by
  exact ⟨rfl, rfl⟩

/-- C2 (amended): generation of a tree fails exactly when the region of the
tree the generator visits contains a failure — a `text` element with an
`Element` child, or an element with an empty tag name — where the visited
region excludes every child of a `clickable` element after the first.
Equivalently, `generate_with_box` (and hence `generate`) succeeds if and
only if `visited_bad` does not hold. -/
theorem c2_generator_failure :
    (∀ (n : Node) (b : Bool), isOkB (generate_with_box n b) = !visited_bad n) ∧
    (∀ n : Node, isOkB (generate n) = !visited_bad n) :=
  ⟨c2_box, fun n => c2_box n true⟩


theorem apply_attribute_clickable (code : Str) (attr : Attribute) :
    apply_attribute (str "clickable") code attr =
      if attr.name == str "key" then code else attr_method_call code attr := by
  by_cases h : (attr.name == str "key") = true <;>
    simp [apply_attribute, attr_method_call, h]

/-- C5: for every `clickable` element, the generator's output is exactly the
spec-described two-argument constructor with chained attributes, the `key`
attribute skipped during chaining and no `.child(...)` call ever appended. -/
theorem c5_clickable_codegen (attributes : List Attribute) (children : List Node)
    (sc : Bool) :
    generate_element_inner (str "clickable") attributes children sc =
      clickable_spec attributes children := by
  rw [show (str "clickable") = 'c' :: str "lickable" from rfl]
  simp only [generate_element_inner]
  rw [if_neg (by decide : ¬(is_uppercase 'c' = true))]
  rw [if_pos (by decide : ((('c' :: str "lickable") == str "clickable")) = true)]
  unfold clickable_spec
  have hfold : ∀ (code : Str),
      apply_attributes ('c' :: str "lickable") code attributes =
        attributes.foldl
          (fun code attr => if attr.name == str "key" then code else attr_method_call code attr)
          code := by
    intro code
    unfold apply_attributes
    have hfun : apply_attribute (str "clickable") =
        (fun code attr => if attr.name == str "key" then code else attr_method_call code attr) := by
      funext code' attr
      exact apply_attribute_clickable code' attr
    rw [show ('c' :: str "lickable") = str "clickable" from rfl, hfun]
  cases children with
  | nil =>
    simp only [gen_pure_bind]
    rw [show clickable_assemble ('c' :: str "lickable") attributes (str "hyprui::Text::new(\"\")") =
      apply_attributes ('c' :: str "lickable")
        (element_type_of ('c' :: str "lickable") ++ str "::new(" ++
          clickable_key attributes ++ str ", " ++ str "hyprui::Text::new(\"\")" ++ str ")")
        attributes from rfl]
    rw [hfold]
    rfl
  | cons ch cs =>
    dsimp only
    cases hx : generate_with_box ch false with
    | error e => rfl
    | ok s =>
      simp only [gen_ok_bind]
      rw [show clickable_assemble ('c' :: str "lickable") attributes s =
        apply_attributes ('c' :: str "lickable")
          (element_type_of ('c' :: str "lickable") ++ str "::new(" ++
            clickable_key attributes ++ str ", " ++ s ++ str ")")
          attributes from rfl]
      rw [hfold]
      rfl

theorem component_children_eq_mapM (cs : List Node) :
    component_children cs =
      (cs.filter (fun ch => !is_ws_text ch)).mapM (fun ch => generate_with_box ch true) := by
  induction cs with
  | nil => rfl
  | cons ch cs ih =>
    rw [component_children.eq_def, List.filter_cons]
    cases ch with
    | Text t =>
      dsimp only
      by_cases hw : (trim t).isEmpty = true
      · rw [if_pos hw]
        rw [show (!is_ws_text (Node.Text t)) = false from by simp [is_ws_text, hw]]
        simp only [Bool.false_eq_true, if_false]
        exact ih
      · rw [if_neg hw]
        rw [show (!is_ws_text (Node.Text t)) = true from by simp [is_ws_text, hw]]
        simp only [if_true]
        rw [List.mapM_cons, ih]
    | Element t a c sc =>
      dsimp only
      rw [show (!is_ws_text (Node.Element t a c sc)) = true from rfl]
      simp only [if_true]
      rw [List.mapM_cons, ih]
    | Expression e =>
      dsimp only
      rw [show (!is_ws_text (Node.Expression e)) = true from rfl]
      simp only [if_true]
      rw [List.mapM_cons, ih]

theorem component_assemble_eq (t : Str) (a : List Attribute) (cc : List Str) :
    component_assemble t a cc =
      (let assignments := a.map prop_assignment ++
        (if cc.isEmpty then []
         else
           [str "        props.children = vec![" ++
             List.intercalate (str ", ") cc ++ str "];"]);
       if assignments.isEmpty then
         str "hyprui::Component::new(" ++ t ++ str ", Default::default())"
       else
         str "hyprui::Component::new(" ++ t ++ str ", " ++
           str "\x7b\n        let mut props = Default::default();\n" ++
           List.intercalate (str "\n") assignments ++ str "\n        props\n    \x7d)") := by
  unfold component_assemble
  by_cases hcc : cc.isEmpty = true <;> simp [hcc]

/-- C6: for every element whose tag starts with an uppercase letter, the
generator's output is exactly the spec-described component call: each
attribute assigned as a props field in order, a `children` field from the
non-whitespace children rendered boxed when such children exist, and the
default-value sentinel instead of a field-assignment block when there are no
assignments at all (zero attributes and zero non-whitespace children). -/
theorem c6_component_codegen (c0 : Char) (r0 : Str) (attributes : List Attribute)
    (children : List Node) (sc : Bool) (h : is_uppercase c0 = true) :
    generate_element_inner (c0 :: r0) attributes children sc =
      component_spec (c0 :: r0) attributes children := by
  simp only [generate_element_inner]
  rw [if_pos h]
  rw [generate_component_eq, component_children_eq_mapM]
  unfold component_spec
  cases hx : (children.filter (fun ch => !is_ws_text ch)).mapM
      (fun ch => generate_with_box ch true) with
  | error e => rfl
  | ok rendered =>
    simp only [gen_ok_bind, Except.bind]
    rw [component_assemble_eq]

/-- Witness for C6 at the spec's `<MyComp name="x" active/>` scenario. -/
theorem c6_component_codegen_witness :
    generate_element_inner (str "MyComp")
        [⟨str "name", some (.String (str "x"))⟩, ⟨str "active", none⟩] [] false =
      component_spec (str "MyComp")
        [⟨str "name", some (.String (str "x"))⟩, ⟨str "active", none⟩] [] :=
  c6_component_codegen 'M' (str "yComp")
    [⟨str "name", some (.String (str "x"))⟩, ⟨str "active", none⟩] [] false (by decide)


theorem str_ok_bind {α β : Type} (a : α) (f : α → Except Str β) :
    (Except.ok a : Except Str α) >>= f = f a := rfl

theorem next_token_open {c : Char} (cs : List Char) (h : (c == '/') = false) :
    next_token ('<' :: c :: cs) = (.OpenTag, c :: cs) := by
  rw [next_token.eq_def]
  dsimp only
  rw [if_neg (by decide : ¬(is_whitespace '<' = true)),
    if_pos (by decide : (('<' : Char) == '<') = true)]
  split
  · simp_all
  · rfl

theorem next_token_end_open (cs : List Char) :
    next_token ('<' :: '/' :: cs) = (.EndOpenTag, cs) := rfl

theorem next_token_close (cs : List Char) :
    next_token ('>' :: cs) = (.CloseTag, cs) := rfl

theorem next_token_self_close (cs : List Char) :
    next_token ('/' :: '>' :: cs) = (.SelfCloseTag, cs) := rfl

theorem next_token_equals (cs : List Char) :
    next_token ('=' :: cs) = (.Equals, cs) := rfl

theorem ident_head_not_slash {c : Char} (hc : (is_alphabetic c || c == '_') = true) :
    (c == '/') = false := by
  by_contra hb
  have : c = '/' := eq_of_beq (by revert hb; cases (c == '/') <;> simp)
  subst this
  exact absurd hc (by decide)

theorem tokenize_mismatch_input (a b : Str) (ha : is_identifier_str a = true)
    (hb : is_identifier_str b = true) :
    tokenize ('<' :: a ++ '>' :: '<' :: '/' :: b ++ ['>']) =
      [.OpenTag, .Identifier a, .CloseTag, .EndOpenTag, .Identifier b, .CloseTag] := by
  rcases a with _ | ⟨c, s'⟩
  · exact absurd ha (by decide)
  rcases b with _ | ⟨d, t'⟩
  · exact absurd hb (by decide)
  simp only [is_identifier_str, Bool.and_eq_true] at ha hb
  simp only [List.cons_append, List.append_assoc]
  rw [tokenize_cons (next_token_open _ (ident_head_not_slash ha.1)) (by simp)]
  show Token.OpenTag ::
    tokenize ((c :: s') ++ ('>' :: '<' :: '/' :: d :: (t' ++ ['>']))) = _
  rw [tokenize_cons (next_token_ident _ ha.1 ha.2 (Or.inr (by simp only [List.headD_cons]; decide))) (by simp)]
  rw [tokenize_cons (next_token_close _) (by simp)]
  rw [tokenize_cons (next_token_end_open _) (by simp)]
  show Token.OpenTag :: Token.Identifier (c :: s') :: Token.CloseTag :: Token.EndOpenTag ::
    tokenize ((d :: t') ++ ('>' :: ([] : List Char))) = _
  rw [tokenize_cons (next_token_ident _ hb.1 hb.2 (Or.inr (by simp only [List.headD_cons]; decide))) (by simp)]
  rw [tokenize_cons (next_token_close _) (by simp)]
  rfl

/-- C8: parsing a non-self-closing element whose closing-tag identifier
differs from its opening tag name fails with the mismatch error naming both
tags and produces no tree; concretely, `<a></b>` fails with exactly that
error message. -/
theorem c8_tag_mismatch :
    parse (str "<a></b>") =
      .error (str "Mismatched closing tag: expected </a>, found </b>") ∧
    (∀ a b : Str, is_identifier_str a = true → is_identifier_str b = true → a ≠ b →
      parse ('<' :: a ++ '>' :: '<' :: '/' :: b ++ ['>']) = .error (mismatch_msg a b)) := by
  constructor
  · rfl
  · intro a b ha hb hne
    unfold parse
    rw [tokenize_mismatch_input a b ha hb]
    simp only [parser_fuel, List.length_cons, List.length_nil]
    show (match parse_elementF (2 * 6 + 2)
        [.OpenTag, .Identifier a, .CloseTag, .EndOpenTag, .Identifier b, .CloseTag] with
      | .ok (n, _) => (.ok n : Except Str Node)
      | .error e => .error e) = .error (mismatch_msg a b)
    rw [show (2 * 6 + 2 : Nat) = 13 + 1 from rfl]
    rw [parse_elementF]
    rw [show parse_attributes [Token.CloseTag, .EndOpenTag, .Identifier b, .CloseTag] =
      .ok ([], [Token.CloseTag, .EndOpenTag, .Identifier b, .CloseTag]) from rfl]
    rw [str_ok_bind]
    dsimp only
    rw [show parse_childrenF 13 a [Token.EndOpenTag, .Identifier b, .CloseTag] =
      .ok ([], [Token.EndOpenTag, .Identifier b, .CloseTag]) from by
        rw [show (13 : Nat) = 12 + 1 from rfl, parse_childrenF]]
    rw [str_ok_bind]
    dsimp only
    rw [if_pos (by exact fun h => hne h.symm : b ≠ a)]

/-- Witness for C8's general part at `a` and `b`. -/
theorem c8_tag_mismatch_witness :
    parse ('<' :: str "a" ++ '>' :: '<' :: '/' :: str "b" ++ ['>']) =
      .error (mismatch_msg (str "a") (str "b")) :=
  c8_tag_mismatch.2 (str "a") (str "b") (by decide) (by decide) (by decide)

theorem read_identifier_chars (l : List Char) :
    (read_identifier l).1.all is_ident_char = true := by
  induction l with
  | nil => rfl
  | cons c cs ih =>
    rw [read_identifier.eq_def]
    dsimp only
    by_cases h : is_ident_char c = true
    · rw [if_pos h]
      rcases hY : read_identifier cs with ⟨v, rest⟩
      rw [hY] at ih
      simpa [h] using ih
    · rw [if_neg h]
      rfl

theorem next_token_identifier_inv :
    ∀ (cs : List Char) (s : Str) (rest : List Char),
      next_token cs = (.Identifier s, rest) → is_identifier_str s = true := by
  intro cs
  induction cs with
  | nil => intro s rest h; simp [next_token] at h
  | cons c cs ih =>
    intro s rest h
    rw [next_token.eq_def] at h
    dsimp only at h
    split_ifs at h with h1 h2 h3 h4 h5 h6 h7 h8
    · exact ih s rest h
    · revert h; split <;> intro h <;> simp_all
    · revert h
      split
      · intro h; simp_all
      · intro h; exact ih s rest h
    · simp_all
    · simp_all
    · rcases hX : read_string_literal c cs false with ⟨v, r⟩
      rw [hX] at h
      simp_all
    · rcases hX : read_expression cs 1 false dq false with ⟨v, r⟩
      rw [hX] at h
      simp_all
    · have hident : is_ident_char c = true := by
        rcases Bool.or_eq_true _ _ |>.mp h8 with ha | hu
        · simp [is_ident_char, is_alphanumeric, ha]
        · simp [is_ident_char, hu]
      have hchars := read_identifier_chars (c :: cs)
      rcases hX : read_identifier (c :: cs) with ⟨v, r⟩
      rw [hX] at h hchars
      have hs : s = v := by
        have := congrArg Prod.fst h
        simpa using this.symm
      subst hs
      rw [read_identifier.eq_def] at hX
      dsimp only at hX
      rw [if_pos hident] at hX
      rcases hY : read_identifier cs with ⟨v2, r2⟩
      rw [hY] at hX
      have hv : s = c :: v2 := by
        have := congrArg Prod.fst hX
        simpa using this.symm
      subst hv
      simp only [is_identifier_str, Bool.and_eq_true]
      exact ⟨h8, by simpa using hchars⟩
    · exact ih s rest h

theorem except_pure_eq_ok {ε α : Type} (a : α) :
    (pure a : Except ε α) = Except.ok a := rfl

theorem tokens_ok_tail {t : Token} {ts : List Token} (h : tokens_ok (t :: ts)) :
    tokens_ok ts :=
  fun s hm => h s (List.mem_cons_of_mem _ hm)

theorem tokens_ok_head {s : Str} {ts : List Token} (h : tokens_ok (Token.Identifier s :: ts)) :
    is_identifier_str s = true :=
  h s (List.mem_cons_self _ _)

theorem tokenize_tokens_ok (input : List Char) : tokens_ok (tokenize input) := by
  have main : ∀ (fuel : Nat) (cs : List Char), tokens_ok (tokenizeF fuel cs) := by
    intro fuel
    induction fuel with
    | zero => intro cs s h; simp [tokenizeF] at h
    | succ f ih =>
      intro cs s h
      rw [tokenizeF] at h
      rcases hnt : next_token cs with ⟨t, rest⟩
      rw [hnt] at h
      cases t with
      | Eof => simp at h
      | Identifier v =>
        rcases List.mem_cons.mp h with heq | hmem
        · cases heq
          exact next_token_identifier_inv cs s rest hnt
        · exact ih rest s hmem
      | OpenTag =>
        rcases List.mem_cons.mp h with heq | hmem
        · cases heq
        · exact ih rest s hmem
      | CloseTag =>
        rcases List.mem_cons.mp h with heq | hmem
        · cases heq
        · exact ih rest s hmem
      | SelfCloseTag =>
        rcases List.mem_cons.mp h with heq | hmem
        · cases heq
        · exact ih rest s hmem
      | EndOpenTag =>
        rcases List.mem_cons.mp h with heq | hmem
        · cases heq
        · exact ih rest s hmem
      | StringLiteral v =>
        rcases List.mem_cons.mp h with heq | hmem
        · cases heq
        · exact ih rest s hmem
      | Expression v =>
        rcases List.mem_cons.mp h with heq | hmem
        · cases heq
        · exact ih rest s hmem
      | Equals =>
        rcases List.mem_cons.mp h with heq | hmem
        · cases heq
        · exact ih rest s hmem
      | Whitespace =>
        rcases List.mem_cons.mp h with heq | hmem
        · cases heq
        · exact ih rest s hmem
  exact main _ input

theorem parse_attributes_P :
    ∀ (n : Nat) (ts : List Token), ts.length ≤ n → ∀ as ts',
      parse_attributes ts = .ok (as, ts') → tokens_ok ts → tokens_ok ts' := by
  intro n
  induction n with
  | zero =>
    intro ts h as ts' hp hP
    have hts : ts = [] := List.length_eq_zero.mp (Nat.le_zero.mp h)
    subst hts
    simp only [parse_attributes, Except.ok.injEq, Prod.mk.injEq] at hp
    rw [← hp.2]
    exact hP
  | succ n ih =>
    intro ts hlen as ts' hp hP
    rw [parse_attributes.eq_def] at hp
    split at hp
    · rename_i name s rest
      cases hrec : parse_attributes rest with
      | error e => rw [hrec] at hp; simp [Except.bind] at hp
      | ok p =>
        rcases p with ⟨as2, ts2⟩
        rw [hrec] at hp
        rw [str_ok_bind] at hp
        simp only [except_pure_eq_ok, Except.ok.injEq, Prod.mk.injEq] at hp
        rw [← hp.2]
        exact ih rest (by simp at hlen; omega) as2 ts2 hrec
          (tokens_ok_tail (tokens_ok_tail (tokens_ok_tail hP)))
    · rename_i name e rest
      cases hrec : parse_attributes rest with
      | error e2 => rw [hrec] at hp; simp [Except.bind] at hp
      | ok p =>
        rcases p with ⟨as2, ts2⟩
        rw [hrec] at hp
        rw [str_ok_bind] at hp
        simp only [except_pure_eq_ok, Except.ok.injEq, Prod.mk.injEq] at hp
        rw [← hp.2]
        exact ih rest (by simp at hlen; omega) as2 ts2 hrec
          (tokens_ok_tail (tokens_ok_tail (tokens_ok_tail hP)))
    · simp at hp
    · rename_i name rest hx1 hx2 hx3
      cases hrec : parse_attributes rest with
      | error e => rw [hrec] at hp; simp [Except.bind] at hp
      | ok p =>
        rcases p with ⟨as2, ts2⟩
        rw [hrec] at hp
        rw [str_ok_bind] at hp
        simp only [except_pure_eq_ok, Except.ok.injEq, Prod.mk.injEq] at hp
        rw [← hp.2]
        exact ih rest (by simp at hlen; omega) as2 ts2 hrec (tokens_ok_tail hP)
    · rename_i hne1 hne2 hne3 hne4
      simp only [Except.ok.injEq, Prod.mk.injEq] at hp
      rw [← hp.2]
      exact hP

theorem str_error_bind {α β : Type} (e : Str) (f : α → Except Str β) :
    (Except.error e : Except Str α) >>= f = Except.error e := rfl

theorem c10_parseF : ∀ (fuel : Nat),
    (∀ (ts : List Token) (n : Node) (ts' : List Token),
      parse_elementF fuel ts = .ok (n, ts') → tokens_ok ts →
        all_tags_ok n = true ∧ tokens_ok ts') ∧
    (∀ (tag : Str) (ts : List Token) (ns : List Node) (ts' : List Token),
      parse_childrenF fuel tag ts = .ok (ns, ts') → tokens_ok ts →
        all_tags_ok_list ns = true ∧ tokens_ok ts') := by
  intro fuel
  induction fuel with
  | zero =>
    constructor
    · intro ts n ts' h _
      simp [parse_elementF, fuel_msg] at h
    · intro tag ts ns ts' h _
      simp [parse_childrenF, fuel_msg] at h
  | succ f ih =>
    obtain ⟨ihE, ihC⟩ := ih
    constructor
    · intro ts n ts' h hP
      rw [show (f + 1 : Nat) = Nat.succ f from rfl] at h
      rcases ts with _ | ⟨t0, ts1⟩
      · simp [parse_elementF] at h
      cases t0 <;> try (exfalso; revert h; simp [parse_elementF]; done)
      case OpenTag =>
      rcases ts1 with _ | ⟨t1, ts2⟩
      · simp [parse_elementF] at h
      cases t1 <;> try (exfalso; revert h; simp [parse_elementF]; done)
      case Identifier tag =>
      simp only [parse_elementF] at h
      have htag : is_identifier_str tag = true := tokens_ok_head (tokens_ok_tail hP)
      cases hA : parse_attributes ts2 with
      | error e => rw [hA, str_error_bind] at h; exact absurd h (by simp)
      | ok p =>
        rcases p with ⟨attrs, ts3⟩
        have hP3 : tokens_ok ts3 :=
          parse_attributes_P ts2.length ts2 (le_refl _) attrs ts3 hA
            (tokens_ok_tail (tokens_ok_tail hP))
        rw [hA, str_ok_bind] at h
        dsimp only at h
        rcases ts3 with _ | ⟨t3, ts4⟩
        · simp at h
        cases t3 <;> try (exfalso; revert h; simp; done)
        case SelfCloseTag =>
          simp only [Except.ok.injEq, Prod.mk.injEq] at h
          obtain ⟨hn, hts⟩ := h
          subst hn
          subst hts
          refine ⟨by simp [all_tags_ok, all_tags_ok_list, htag], tokens_ok_tail hP3⟩
        case CloseTag =>
          dsimp only at h
          cases hC : parse_childrenF f tag ts4 with
          | error e => rw [hC, str_error_bind] at h; exact absurd h (by simp)
          | ok q =>
            rcases q with ⟨children, ts5⟩
            obtain ⟨hCok, hP5⟩ := ihC tag ts4 children ts5 hC (tokens_ok_tail hP3)
            rw [hC, str_ok_bind] at h
            dsimp only at h
            rcases ts5 with _ | ⟨t5, ts6⟩
            · simp at h
            cases t5 <;> try (exfalso; revert h; simp; done)
            case EndOpenTag =>
            dsimp only at h
            rcases ts6 with _ | ⟨t6, ts7⟩
            · simp at h
            cases t6 <;> try (exfalso; revert h; simp; done)
            case Identifier closing =>
            dsimp only at h
            by_cases hcl : closing ≠ tag
            · rw [if_pos hcl] at h
              exact absurd h (by simp)
            · rw [if_neg hcl] at h
              rcases ts7 with _ | ⟨t7, ts8⟩
              · simp at h
              cases t7 <;> try (exfalso; revert h; simp; done)
              dsimp only at h
              simp only [Except.ok.injEq, Prod.mk.injEq] at h
              obtain ⟨hn, hts⟩ := h
              subst hn
              subst hts
              refine ⟨by simp [all_tags_ok, htag, hCok],
                tokens_ok_tail (tokens_ok_tail (tokens_ok_tail hP5))⟩
    · intro tag ts ns ts' h hP
      rw [show (f + 1 : Nat) = Nat.succ f from rfl] at h
      rcases ts with _ | ⟨t0, rest⟩
      · simp [parse_childrenF] at h
      cases t0 with
      | EndOpenTag =>
        simp only [parse_childrenF, Except.ok.injEq, Prod.mk.injEq] at h
        obtain ⟨hn, hts⟩ := h
        subst hn
        subst hts
        exact ⟨rfl, hP⟩
      | OpenTag =>
        simp only [parse_childrenF] at h
        cases hE : parse_elementF f (Token.OpenTag :: rest) with
        | error e => rw [hE, str_error_bind] at h; exact absurd h (by simp)
        | ok p =>
          rcases p with ⟨n1, ts1⟩
          obtain ⟨hEok, hP1⟩ := ihE _ n1 ts1 hE hP
          rw [hE, str_ok_bind] at h
          dsimp only at h
          cases hC2 : parse_childrenF f tag ts1 with
          | error e => rw [hC2, str_error_bind] at h; exact absurd h (by simp)
          | ok q =>
            rcases q with ⟨ns2, ts2⟩
            obtain ⟨hC2ok, hP2⟩ := ihC tag ts1 ns2 ts2 hC2 hP1
            rw [hC2, str_ok_bind] at h
            simp only [except_pure_eq_ok, Except.ok.injEq, Prod.mk.injEq] at h
            obtain ⟨hn, hts⟩ := h
            subst hn
            subst hts
            exact ⟨by simp [all_tags_ok_list, hEok, hC2ok], hP2⟩
      | Expression e =>
        simp only [parse_childrenF] at h
        cases hC2 : parse_childrenF f tag rest with
        | error e2 => rw [hC2, str_error_bind] at h; exact absurd h (by simp)
        | ok q =>
          rcases q with ⟨ns2, ts2⟩
          obtain ⟨hC2ok, hP2⟩ := ihC tag rest ns2 ts2 hC2 (tokens_ok_tail hP)
          rw [hC2, str_ok_bind] at h
          simp only [except_pure_eq_ok, Except.ok.injEq, Prod.mk.injEq] at h
          obtain ⟨hn, hts⟩ := h
          subst hn
          subst hts
          exact ⟨by simp [all_tags_ok_list, all_tags_ok, hC2ok], hP2⟩
      | Identifier t =>
        simp only [parse_childrenF] at h
        cases hC2 : parse_childrenF f tag rest with
        | error e2 => rw [hC2, str_error_bind] at h; exact absurd h (by simp)
        | ok q =>
          rcases q with ⟨ns2, ts2⟩
          obtain ⟨hC2ok, hP2⟩ := ihC tag rest ns2 ts2 hC2 (tokens_ok_tail hP)
          rw [hC2, str_ok_bind] at h
          simp only [except_pure_eq_ok, Except.ok.injEq, Prod.mk.injEq] at h
          obtain ⟨hn, hts⟩ := h
          subst hn
          subst hts
          exact ⟨by simp [all_tags_ok_list, all_tags_ok, hC2ok], hP2⟩
      | Eof => simp [parse_childrenF] at h
      | CloseTag =>
        simp only [parse_childrenF] at h
        exact ihC tag rest ns ts' h (tokens_ok_tail hP)
      | SelfCloseTag =>
        simp only [parse_childrenF] at h
        exact ihC tag rest ns ts' h (tokens_ok_tail hP)
      | StringLiteral s =>
        simp only [parse_childrenF] at h
        exact ihC tag rest ns ts' h (tokens_ok_tail hP)
      | Equals =>
        simp only [parse_childrenF] at h
        exact ihC tag rest ns ts' h (tokens_ok_tail hP)
      | Whitespace =>
        simp only [parse_childrenF] at h
        exact ihC tag rest ns ts' h (tokens_ok_tail hP)

theorem fmt_args_no_empty (cs : List Node) :
    fmt_args cs ≠ Except.error GenError.EmptyTagName := by
  induction cs with
  | nil => simp [fmt_args]
  | cons c cs ih =>
    cases c with
    | Element t a ch sc => simp [fmt_args]
    | Text t =>
      simp only [fmt_args]
      cases h : fmt_args cs with
      | error e => rw [h] at ih; rw [gen_error_bind]; exact ih
      | ok args => rw [gen_ok_bind]; simp [except_pure_eq_ok]
    | Expression e =>
      simp only [fmt_args]
      cases h : fmt_args cs with
      | error e2 => rw [h] at ih; rw [gen_error_bind]; exact ih
      | ok args => rw [gen_ok_bind]; simp [except_pure_eq_ok]

mutual

theorem c10_gen_box (n : Node) (b : Bool) (hA : all_tags_ok n = true) :
    generate_with_box n b ≠ Except.error GenError.EmptyTagName := by
  cases n with
  | Text t => rw [generate_with_box_Text]; simp
  | Expression e => rw [generate_with_box_Expr]; simp
  | Element t a c sc =>
    simp only [all_tags_ok, Bool.and_eq_true] at hA
    obtain ⟨hT, hC⟩ := hA
    rw [generate_with_box.eq_def]
    cases t with
    | nil => simp [is_identifier_str] at hT
    | cons c0 r0 =>
      dsimp only
      by_cases h1 : is_uppercase c0 = true
      · simp only [h1, if_true]
        have hcc := c10_gen_children c hC
        cases hx : component_children c with
        | error e =>
          rw [hx] at hcc
          have he : e ≠ GenError.EmptyTagName := fun hq => hcc (by rw [hq])
          simp only [gen_error_bind, ne_eq, Except.error.injEq]
          exact he
        | ok cc =>
          simp only [gen_ok_bind, gen_pure_bind]
          cases b <;> simp [except_pure_eq_ok]
      · simp only [h1, Bool.false_eq_true, if_false]
        by_cases h2 : ((c0 :: r0) == str "clickable") = true
        · simp only [h2, if_true]
          cases c with
          | nil =>
            dsimp only
            simp only [gen_pure_bind]
            cases b <;> simp [except_pure_eq_ok]
          | cons ch cs =>
            simp only [all_tags_ok_list, Bool.and_eq_true] at hC
            dsimp only
            have hch := c10_gen_box ch false hC.1
            cases hx : generate_with_box ch false with
            | error e =>
              rw [hx] at hch
              have he : e ≠ GenError.EmptyTagName := fun hq => hch (by rw [hq])
              simp only [gen_error_bind, ne_eq, Except.error.injEq]
              exact he
            | ok s =>
              simp only [gen_ok_bind, gen_pure_bind]
              cases b <;> simp [except_pure_eq_ok]
        · simp only [h2, Bool.false_eq_true, if_false]
          by_cases h3 : ((c0 :: r0) == str "text") = true
          · simp only [h3, if_true]
            have hf := fmt_args_no_empty c
            cases hx : fmt_args c with
            | error e =>
              rw [hx] at hf
              have he : e ≠ GenError.EmptyTagName := fun hq => hf (by rw [hq])
              simp only [gen_error_bind, ne_eq, Except.error.injEq]
              exact he
            | ok args =>
              simp only [gen_ok_bind, gen_pure_bind]
              cases b <;> simp [except_pure_eq_ok]
          · simp only [h3, Bool.false_eq_true, if_false]
            have ha := c10_gen_append
              (apply_attributes (c0 :: r0)
                (element_type_of (c0 :: r0) ++ str "::new()") a) c hC
            cases hx : append_children
                (apply_attributes (c0 :: r0)
                  (element_type_of (c0 :: r0) ++ str "::new()") a) c with
            | error e =>
              rw [hx] at ha
              have he : e ≠ GenError.EmptyTagName := fun hq => ha (by rw [hq])
              simp only [gen_error_bind, ne_eq, Except.error.injEq]
              exact he
            | ok s =>
              simp only [gen_ok_bind]
              cases b <;> simp [except_pure_eq_ok]

theorem c10_gen_children (cs : List Node) (hA : all_tags_ok_list cs = true) :
    component_children cs ≠ Except.error GenError.EmptyTagName := by
  cases cs with
  | nil => simp [component_children]
  | cons ch cs =>
    simp only [all_tags_ok_list, Bool.and_eq_true] at hA
    rw [component_children.eq_def]
    cases ch with
    | Text t =>
      dsimp only
      by_cases hw : (trim t).isEmpty = true
      · simp only [hw, if_true]
        exact c10_gen_children cs hA.2
      · simp only [hw, Bool.false_eq_true, if_false]
        rw [generate_with_box_Text, gen_ok_bind]
        have := c10_gen_children cs hA.2
        cases hx : component_children cs with
        | error e => rw [hx] at this; rw [gen_error_bind]; exact this
        | ok l => rw [gen_ok_bind]; simp [except_pure_eq_ok]
    | Element t a c sc =>
      dsimp only
      have hbox := c10_gen_box (Node.Element t a c sc) true hA.1
      cases hx : generate_with_box (Node.Element t a c sc) true with
      | error e =>
        rw [hx] at hbox
        have he : e ≠ GenError.EmptyTagName := fun hq => hbox (by rw [hq])
        simp only [gen_error_bind, ne_eq, Except.error.injEq]
        exact he
      | ok s =>
        simp only [gen_ok_bind]
        have := c10_gen_children cs hA.2
        cases hy : component_children cs with
        | error e => rw [hy] at this; rw [gen_error_bind]; exact this
        | ok l => rw [gen_ok_bind]; simp [except_pure_eq_ok]
    | Expression e =>
      dsimp only
      rw [generate_with_box_Expr, gen_ok_bind]
      have := c10_gen_children cs hA.2
      cases hx : component_children cs with
      | error e2 => rw [hx] at this; rw [gen_error_bind]; exact this
      | ok l => rw [gen_ok_bind]; simp [except_pure_eq_ok]

theorem c10_gen_append (code : Str) (cs : List Node) (hA : all_tags_ok_list cs = true) :
    append_children code cs ≠ Except.error GenError.EmptyTagName := by
  cases cs with
  | nil => simp [append_children]
  | cons ch cs =>
    simp only [all_tags_ok_list, Bool.and_eq_true] at hA
    rw [append_children.eq_def]
    cases ch with
    | Text t =>
      dsimp only
      by_cases hw : (trim t).isEmpty = true
      · simp only [hw, if_true]
        exact c10_gen_append code cs hA.2
      · simp only [hw, Bool.false_eq_true, if_false]
        rw [generate_with_box_Text, gen_ok_bind]
        exact c10_gen_append _ cs hA.2
    | Element t a c sc =>
      dsimp only
      have hbox := c10_gen_box (Node.Element t a c sc) false hA.1
      cases hx : generate_with_box (Node.Element t a c sc) false with
      | error e =>
        rw [hx] at hbox
        have he : e ≠ GenError.EmptyTagName := fun hq => hbox (by rw [hq])
        simp only [gen_error_bind, ne_eq, Except.error.injEq]
        exact he
      | ok s =>
        simp only [gen_ok_bind]
        exact c10_gen_append _ cs hA.2
    | Expression e =>
      dsimp only
      rw [generate_with_box_Expr, gen_ok_bind]
      exact c10_gen_append _ cs hA.2

end

/-- C10: every `Identifier` token the tokenizer's `next_token` produces is a
non-empty string whose first character is a letter or underscore; every
`Element` in a successfully parsed tree has such an identifier tag name (in
particular a non-empty one), and the generator's inspection of the first
character of a tag name (the `chars().next().unwrap()`, modelled as the
`GenError.EmptyTagName` outcome) can never fire on any tree obtained from a
successful parse, boxed or unboxed. -/
theorem c10_identifier_safety :
    (∀ (cs : List Char) (s : Str) (rest : List Char),
        next_token cs = (Token.Identifier s, rest) → is_identifier_str s = true) ∧
    (∀ (input : Str) (n : Node), parse input = .ok n →
        all_tags_ok n = true ∧
        ∀ (b : Bool), generate_with_box n b ≠ Except.error GenError.EmptyTagName) := by
  constructor
  · exact next_token_identifier_inv
  · intro input n hp
    unfold parse at hp
    cases hx : parse_elementF (parser_fuel (tokenize input)) (tokenize input) with
    | error e => rw [hx] at hp; exact absurd hp (by simp)
    | ok p =>
      rcases p with ⟨m, ts'⟩
      rw [hx] at hp
      simp only [Except.ok.injEq] at hp
      subst hp
      have hok : all_tags_ok m = true ∧ tokens_ok ts' :=
        (c10_parseF (parser_fuel (tokenize input))).1 (tokenize input) m ts' hx
          (tokenize_tokens_ok input)
      exact ⟨hok.1, fun b => c10_gen_box m b hok.1⟩

/-- Witness for C10 at the concrete input `<a/>`. -/
theorem c10_identifier_safety_witness :
    parse (str "<a/>") = .ok (Node.Element (str "a") [] [] true) ∧
    all_tags_ok (Node.Element (str "a") [] [] true) = true ∧
    generate_with_box (Node.Element (str "a") [] [] true) true ≠
      Except.error GenError.EmptyTagName := by
  refine ⟨by rfl, ?_, ?_⟩
  · exact (c10_identifier_safety.2 (str "<a/>")
      (Node.Element (str "a") [] [] true) (by rfl)).1
  · exact (c10_identifier_safety.2 (str "<a/>")
      (Node.Element (str "a") [] [] true) (by rfl)).2 true

/-- SPEC-SIDE (C1): the claim's printing of one attribute, with one leading
separating space: ` name`, ` name="value"` or ` name={expr}`. -/
def print_attr (a : Attribute) : Str :=
  ' ' :: (a.name ++
    match a.value with
    | none => []
    | some (.String s) => '=' :: (dq :: (s ++ [dq]))
    | some (.Expression e) => '=' :: (lbrace :: (e ++ [rbrace])))

/-- SPEC-SIDE (C1): printing of an attribute list. -/
def print_attrs (as : List Attribute) : Str := (as.map print_attr).flatten

mutual

/-- SPEC-SIDE (C1): the claim's printing of a tree:
`<tag attrs>children</tag>` for a non-self-closing element, `<tag attrs/>`
for a self-closing one, the raw text for a `Text` node, `{expr}` for an
`Expression` node. -/
def print_node : Node → Str
  | Node.Element t as cs sc =>
    if sc then '<' :: (t ++ print_attrs as ++ ['/', '>'])
    else
      '<' :: (t ++ print_attrs as ++
        '>' :: (print_children cs ++ '<' :: ('/' :: (t ++ ['>']))))
  | Node.Text s => s
  | Node.Expression e => lbrace :: (e ++ [rbrace])

/-- SPEC-SIDE (C1): printing of a child list, one separating space before
each child. -/
def print_children : List Node → Str
  | [] => []
  | c :: cs => ' ' :: (print_node c ++ print_children cs)

end

/-- SPEC-SIDE (C1): a printable attribute: identifier-shaped name; a string
value free of quote and backslash characters; an expression value with
balanced braces and closed nested strings. -/
def wf_attr (a : Attribute) : Bool :=
  is_identifier_str a.name &&
    match a.value with
    | none => true
    | some (.String s) => s.all (fun c => !(c == dq) && !(c == bslash))
    | some (.Expression e) => balanced_braces e && closed_strings e

mutual

/-- SPEC-SIDE (C1): a printable tree: identifier-shaped tag names and text
children, printable attributes, expression children with balanced braces and
closed nested strings, and no children on self-closing elements (printing
`<tag attrs/>` drops children). -/
def wf_node : Node → Bool
  | Node.Element t as cs sc =>
    is_identifier_str t && as.all wf_attr && wf_children cs && (!sc || cs.isEmpty)
  | Node.Text s => is_identifier_str s
  | Node.Expression e => balanced_braces e && closed_strings e

/-- `wf_node` over a child list. -/
def wf_children : List Node → Bool
  | [] => true
  | c :: cs => wf_node c && wf_children cs

end

/-- The token rendering of one printed attribute. -/
def attr_tokens (a : Attribute) : List Token :=
  match a.value with
  | none => [.Identifier a.name]
  | some (.String s) => [.Identifier a.name, .Equals, .StringLiteral s]
  | some (.Expression e) => [.Identifier a.name, .Equals, .Expression e]

/-- The token rendering of a printed attribute list. -/
def attrs_tokens (as : List Attribute) : List Token := (as.map attr_tokens).flatten

mutual

/-- The token rendering of a printed node. -/
def node_tokens : Node → List Token
  | Node.Element t as cs sc =>
    if sc then .OpenTag :: (.Identifier t :: (attrs_tokens as ++ [.SelfCloseTag]))
    else
      .OpenTag :: (.Identifier t :: (attrs_tokens as ++
        .CloseTag :: (children_tokens cs ++ [.EndOpenTag, .Identifier t, .CloseTag])))
  | Node.Text s => [.Identifier s]
  | Node.Expression e => [.Expression e]

/-- The token rendering of a printed child list. -/
def children_tokens : List Node → List Token
  | [] => []
  | c :: cs => node_tokens c ++ children_tokens cs

end

mutual

/-- Parser fuel sufficient to re-parse a printed node. -/
def tsize : Node → Nat
  | Node.Element _ _ cs sc => if sc then 1 else csize cs + 1
  | Node.Text _ => 1
  | Node.Expression _ => 1

/-- Parser fuel sufficient to re-parse a printed child list. -/
def csize : List Node → Nat
  | [] => 1
  | c :: cs => max (tsize c) (csize cs) + 1

end

/-- Token streams on which `parse_attributes` stops immediately: no leading
identifier (which would start another attribute) and no leading `=`. -/
def attr_stop : List Token → Bool
  | Token.Identifier _ :: _ => false
  | Token.Equals :: _ => false
  | _ => true

theorem print_attrs_cons (a : Attribute) (as : List Attribute) :
    print_attrs (a :: as) = print_attr a ++ print_attrs as := rfl

theorem attrs_tokens_cons (a : Attribute) (as : List Attribute) :
    attrs_tokens (a :: as) = attr_tokens a ++ attrs_tokens as := rfl

theorem print_children_cons (c : Node) (cs : List Node) :
    print_children (c :: cs) = ' ' :: (print_node c ++ print_children cs) := by
  rw [print_children.eq_def]

theorem children_tokens_cons (c : Node) (cs : List Node) :
    children_tokens (c :: cs) = node_tokens c ++ children_tokens cs := by
  rw [children_tokens.eq_def]

theorem print_node_Element_true (t : Str) (as : List Attribute) (cs : List Node) :
    print_node (Node.Element t as cs true) =
      '<' :: (t ++ print_attrs as ++ ['/', '>']) := by
  rw [print_node.eq_def]; simp

theorem print_node_Element_false (t : Str) (as : List Attribute) (cs : List Node) :
    print_node (Node.Element t as cs false) =
      '<' :: (t ++ print_attrs as ++
        '>' :: (print_children cs ++ '<' :: ('/' :: (t ++ ['>'])))) := by
  rw [print_node.eq_def]; simp

theorem node_tokens_Element_true (t : Str) (as : List Attribute) (cs : List Node) :
    node_tokens (Node.Element t as cs true) =
      Token.OpenTag :: (Token.Identifier t :: (attrs_tokens as ++ [Token.SelfCloseTag])) := by
  rw [node_tokens.eq_def]; simp

theorem node_tokens_Element_false (t : Str) (as : List Attribute) (cs : List Node) :
    node_tokens (Node.Element t as cs false) =
      Token.OpenTag :: (Token.Identifier t :: (attrs_tokens as ++
        Token.CloseTag :: (children_tokens cs ++
          [Token.EndOpenTag, Token.Identifier t, Token.CloseTag]))) := by
  rw [node_tokens.eq_def]; simp

theorem tsize_Element (t : Str) (as : List Attribute) (cs : List Node) (sc : Bool) :
    tsize (Node.Element t as cs sc) = if sc then 1 else csize cs + 1 := by
  rw [tsize.eq_def]

theorem csize_cons_eq (c : Node) (cs : List Node) :
    csize (c :: cs) = max (tsize c) (csize cs) + 1 := by
  rw [csize.eq_def]

theorem tokenize_space (cs : List Char) : tokenize (' ' :: cs) = tokenize cs :=
  tokenize_ws cs (by decide)

theorem print_attrs_head (as : List Attribute) (r : List Char)
    (hr : is_ident_char (r.headD ' ') = false) :
    is_ident_char ((print_attrs as ++ r).headD ' ') = false := by
  cases as with
  | nil => simpa [print_attrs] using hr
  | cons a as =>
    rw [print_attrs_cons]
    rw [show print_attr a = ' ' :: (a.name ++
      match a.value with
      | none => []
      | some (.String s) => '=' :: (dq :: (s ++ [dq]))
      | some (.Expression e) => '=' :: (lbrace :: (e ++ [rbrace]))) from rfl]
    simp only [List.cons_append, List.headD_cons]
    decide

theorem print_children_head (cs : List Node) (r : List Char)
    (hr : is_ident_char (r.headD ' ') = false) :
    is_ident_char ((print_children cs ++ r).headD ' ') = false := by
  cases cs with
  | nil => simpa [print_children] using hr
  | cons c cs =>
    rw [print_children_cons]
    simp only [List.cons_append, List.headD_cons]
    decide

theorem tokenize_attr (a : Attribute) (r : List Char) (hw : wf_attr a = true)
    (hr : is_ident_char (r.headD ' ') = false) :
    tokenize (print_attr a ++ r) = attr_tokens a ++ tokenize r := by
  obtain ⟨n, v⟩ := a
  simp only [wf_attr, Bool.and_eq_true] at hw
  obtain ⟨hn, hv⟩ := hw
  cases n with
  | nil => simp [is_identifier_str] at hn
  | cons c s' =>
    simp only [is_identifier_str, Bool.and_eq_true] at hn
    rcases v with _ | v'
    · have hsh : print_attr ⟨c :: s', none⟩ ++ r = ' ' :: ((c :: s') ++ r) := by
        simp [print_attr, List.cons_append, List.append_assoc]
      rw [hsh, tokenize_space]
      rw [tokenize_cons (next_token_ident r hn.1 hn.2 (Or.inr hr)) (by simp)]
      rfl
    cases v' with
    | String s =>
      have hsh : print_attr ⟨c :: s', some (.String s)⟩ ++ r =
          ' ' :: ((c :: s') ++ '=' :: (dq :: (s ++ dq :: r))) := by
        simp [print_attr, List.cons_append, List.append_assoc]
      rw [hsh, tokenize_space]
      rw [tokenize_cons (next_token_ident ('=' :: (dq :: (s ++ dq :: r))) hn.1 hn.2
        (Or.inr (by simp only [List.headD_cons]; decide))) (by simp)]
      rw [tokenize_cons (next_token_equals (dq :: (s ++ dq :: r))) (by simp)]
      rw [tokenize_cons (next_token_string r (by decide) hv) (by simp)]
      rfl
    | Expression e =>
      simp only [Bool.and_eq_true] at hv
      obtain ⟨hb, hc2⟩ := hv
      unfold balanced_braces at hb
      unfold closed_strings at hc2
      cases hscan : scanExp e expInit with
      | none => rw [hscan] at hb; exact absurd hb (by simp)
      | some st =>
        rw [hscan] at hb hc2
        have hsh : print_attr ⟨c :: s', some (.Expression e)⟩ ++ r =
            ' ' :: ((c :: s') ++ '=' :: (lbrace :: (e ++ rbrace :: r))) := by
          simp [print_attr, List.cons_append, List.append_assoc]
        rw [hsh, tokenize_space]
        rw [tokenize_cons (next_token_ident ('=' :: (lbrace :: (e ++ rbrace :: r))) hn.1 hn.2
          (Or.inr (by simp only [List.headD_cons]; decide))) (by simp)]
        rw [tokenize_cons (next_token_equals (lbrace :: (e ++ rbrace :: r))) (by simp)]
        rw [tokenize_cons (next_token_expr r hscan (by simpa using hb) (by simpa using hc2))
          (by simp)]
        rfl

theorem tokenize_attrs (as : List Attribute) (r : List Char)
    (hw : as.all wf_attr = true) (hr : is_ident_char (r.headD ' ') = false) :
    tokenize (print_attrs as ++ r) = attrs_tokens as ++ tokenize r := by
  induction as with
  | nil => rfl
  | cons a as ih =>
    simp only [List.all_cons, Bool.and_eq_true] at hw
    rw [print_attrs_cons, attrs_tokens_cons, List.append_assoc,
      tokenize_attr a _ hw.1 (print_attrs_head as r hr), ih hw.2]
    simp only [List.append_assoc]

mutual

theorem tokenize_print_node (e : Node) (hw : wf_node e = true) (r : List Char)
    (hr : is_ident_char (r.headD ' ') = false) :
    tokenize (print_node e ++ r) = node_tokens e ++ tokenize r := by
  cases e with
  | Text s =>
    cases s with
    | nil => simp [wf_node, is_identifier_str] at hw
    | cons c s' =>
      simp only [wf_node, is_identifier_str, Bool.and_eq_true] at hw
      rw [show print_node (Node.Text (c :: s')) ++ r = (c :: s') ++ r from rfl]
      rw [tokenize_cons (next_token_ident r hw.1 hw.2 (Or.inr hr)) (by simp)]
      rfl
  | Expression e =>
    simp only [wf_node, Bool.and_eq_true] at hw
    obtain ⟨hb, hc2⟩ := hw
    unfold balanced_braces at hb
    unfold closed_strings at hc2
    cases hscan : scanExp e expInit with
    | none => rw [hscan] at hb; exact absurd hb (by simp)
    | some st =>
      rw [hscan] at hb hc2
      have hsh : print_node (Node.Expression e) ++ r = lbrace :: (e ++ rbrace :: r) := by
        rw [show print_node (Node.Expression e) = lbrace :: (e ++ [rbrace]) from rfl]
        simp [List.cons_append, List.append_assoc]
      rw [hsh,
        tokenize_cons (next_token_expr r hscan (by simpa using hb) (by simpa using hc2))
          (by simp)]
      rfl
  | Element t as cs sc =>
    simp only [wf_node, Bool.and_eq_true] at hw
    obtain ⟨⟨⟨hT, hA⟩, hC⟩, hsc⟩ := hw
    cases t with
    | nil => simp [is_identifier_str] at hT
    | cons c0 t' =>
      simp only [is_identifier_str, Bool.and_eq_true] at hT
      cases sc with
      | true =>
        have hsh : print_node (Node.Element (c0 :: t') as cs true) ++ r =
            '<' :: (c0 :: (t' ++ (print_attrs as ++ '/' :: ('>' :: r)))) := by
          rw [print_node_Element_true]
          simp [List.cons_append, List.append_assoc]
        rw [hsh,
          tokenize_cons (next_token_open _ (ident_head_not_slash hT.1)) (by simp)]
        rw [show c0 :: (t' ++ (print_attrs as ++ '/' :: ('>' :: r))) =
          (c0 :: t') ++ (print_attrs as ++ '/' :: ('>' :: r)) from rfl]
        rw [tokenize_cons (next_token_ident (print_attrs as ++ '/' :: ('>' :: r)) hT.1 hT.2
          (Or.inr (print_attrs_head as _ (by simp only [List.headD_cons]; decide)))) (by simp)]
        rw [tokenize_attrs as _ hA (by simp only [List.headD_cons]; decide)]
        rw [tokenize_cons (next_token_self_close r) (by simp)]
        rw [node_tokens_Element_true]
        simp [List.cons_append, List.append_assoc]
      | false =>
        have hsh : print_node (Node.Element (c0 :: t') as cs false) ++ r =
            '<' :: (c0 :: (t' ++ (print_attrs as ++
              '>' :: (print_children cs ++ '<' :: ('/' :: ((c0 :: t') ++ '>' :: r)))))) := by
          rw [print_node_Element_false]
          simp [List.cons_append, List.append_assoc]
        rw [hsh,
          tokenize_cons (next_token_open _ (ident_head_not_slash hT.1)) (by simp)]
        rw [show c0 :: (t' ++ (print_attrs as ++
            '>' :: (print_children cs ++ '<' :: ('/' :: ((c0 :: t') ++ '>' :: r))))) =
          (c0 :: t') ++ (print_attrs as ++
            '>' :: (print_children cs ++ '<' :: ('/' :: ((c0 :: t') ++ '>' :: r)))) from rfl]
        rw [tokenize_cons (next_token_ident
          (print_attrs as ++ '>' :: (print_children cs ++ '<' :: ('/' :: ((c0 :: t') ++ '>' :: r))))
          hT.1 hT.2
          (Or.inr (print_attrs_head as _ (by simp only [List.headD_cons]; decide)))) (by simp)]
        rw [tokenize_attrs as _ hA (by simp only [List.headD_cons]; decide)]
        rw [tokenize_cons (next_token_close _) (by simp)]
        rw [tokenize_print_children cs hC _ (by simp only [List.headD_cons]; decide)]
        rw [tokenize_cons (next_token_end_open ((c0 :: t') ++ '>' :: r)) (by simp)]
        rw [tokenize_cons (next_token_ident ('>' :: r) hT.1 hT.2
          (Or.inr (by simp only [List.headD_cons]; decide))) (by simp)]
        rw [tokenize_cons (next_token_close r) (by simp)]
        rw [node_tokens_Element_false]
        simp [List.cons_append, List.append_assoc]

theorem tokenize_print_children (cs : List Node) (hw : wf_children cs = true) (r : List Char)
    (hr : is_ident_char (r.headD ' ') = false) :
    tokenize (print_children cs ++ r) = children_tokens cs ++ tokenize r := by
  cases cs with
  | nil => rfl
  | cons c cs =>
    simp only [wf_children, Bool.and_eq_true] at hw
    have hsh : print_children (c :: cs) ++ r = ' ' :: (print_node c ++ (print_children cs ++ r)) := by
      rw [print_children_cons]
      simp [List.cons_append, List.append_assoc]
    rw [hsh, tokenize_space]
    rw [tokenize_print_node c hw.1 _ (print_children_head cs r hr)]
    rw [tokenize_print_children cs hw.2 r hr]
    rw [children_tokens_cons]
    simp only [List.append_assoc]

end

theorem parse_attributes_stop (ts : List Token) (h : attr_stop ts = true) :
    parse_attributes ts = .ok ([], ts) := by
  rcases ts with _ | ⟨t, ts'⟩
  · rfl
  cases t <;> first | rfl | simp [attr_stop] at h

theorem attrs_append_ne_equals (as : List Attribute) (ts : List Token)
    (h : attr_stop ts = true) (X : List Token) :
    attrs_tokens as ++ ts ≠ Token.Equals :: X := by
  cases as with
  | nil =>
    intro hx
    rw [show attrs_tokens [] ++ ts = ts from rfl] at hx
    rw [hx] at h
    simp [attr_stop] at h
  | cons a as =>
    intro hx
    obtain ⟨n, v⟩ := a
    rcases v with _ | v'
    · simp [attrs_tokens_cons, attr_tokens, List.cons_append] at hx
    cases v' <;> simp [attrs_tokens_cons, attr_tokens, List.cons_append] at hx

theorem parse_attributes_round (ts : List Token) (h : attr_stop ts = true) :
    ∀ (as : List Attribute), parse_attributes (attrs_tokens as ++ ts) = .ok (as, ts) := by
  intro as
  induction as with
  | nil => exact parse_attributes_stop ts h
  | cons a as ih =>
    obtain ⟨n, v⟩ := a
    rcases v with _ | v'
    · rw [show attrs_tokens (⟨n, none⟩ :: as) ++ ts =
        Token.Identifier n :: (attrs_tokens as ++ ts) from by
          rw [attrs_tokens_cons]; rfl]
      rw [parse_attributes.eq_def]
      split
      · rename_i name rest heq
        simp only [List.cons.injEq] at heq
        exact absurd heq.2 (attrs_append_ne_equals as ts h _)
      · rename_i name rest heq
        simp only [List.cons.injEq] at heq
        exact absurd heq.2 (attrs_append_ne_equals as ts h _)
      · rename_i name rest heq
        simp only [List.cons.injEq] at heq
        exact absurd heq.2 (attrs_append_ne_equals as ts h _)
      · rename_i name rest hx1 hx2 hx3 heq
        simp only [List.cons.injEq, Token.Identifier.injEq] at heq
        obtain ⟨hn, hrest⟩ := heq
        subst hn
        rw [← hrest, ih, str_ok_bind]
        rfl
      · rename_i hx1 hx2 hx3 hx4
        exact absurd rfl (hx4 n (attrs_tokens as ++ ts))
    · cases v' with
      | String s =>
        rw [show attrs_tokens (⟨n, some (.String s)⟩ :: as) ++ ts =
          Token.Identifier n :: (Token.Equals :: (Token.StringLiteral s ::
            (attrs_tokens as ++ ts))) from by
            rw [attrs_tokens_cons]; rfl]
        simp only [parse_attributes]
        rw [ih, str_ok_bind]
        rfl
      | Expression e =>
        rw [show attrs_tokens (⟨n, some (.Expression e)⟩ :: as) ++ ts =
          Token.Identifier n :: (Token.Equals :: (Token.Expression e ::
            (attrs_tokens as ++ ts))) from by
            rw [attrs_tokens_cons]; rfl]
        simp only [parse_attributes]
        rw [ih, str_ok_bind]
        rfl

theorem node_tokens_Element_head (t : Str) (as : List Attribute) (cs : List Node) (sc : Bool) :
    ∃ Y, node_tokens (Node.Element t as cs sc) = Token.OpenTag :: Y := by
  cases sc
  · exact ⟨_, node_tokens_Element_false t as cs⟩
  · exact ⟨_, node_tokens_Element_true t as cs⟩

mutual

theorem parse_elem_round (e : Node) (he : is_element_node e = true) (hw : wf_node e = true) :
    ∀ (fuel : Nat), tsize e ≤ fuel → ∀ (ts : List Token),
      parse_elementF fuel (node_tokens e ++ ts) = .ok (e, ts) := by
  cases e with
  | Text s => simp [is_element_node] at he
  | Expression s => simp [is_element_node] at he
  | Element t as cs sc =>
    simp only [wf_node, Bool.and_eq_true] at hw
    obtain ⟨⟨⟨hT, hA⟩, hC⟩, hsc⟩ := hw
    intro fuel hf ts
    cases sc with
    | true =>
      have hcs : cs = [] := by
        cases cs with
        | nil => rfl
        | cons c cs => simp [List.isEmpty] at hsc
      subst hcs
      cases fuel with
      | zero => rw [tsize_Element] at hf; simp at hf
      | succ f =>
        rw [show node_tokens (Node.Element t as [] true) ++ ts =
          Token.OpenTag :: (Token.Identifier t ::
            (attrs_tokens as ++ Token.SelfCloseTag :: ts)) from by
            rw [node_tokens_Element_true]
            simp [List.cons_append, List.append_assoc]]
        rw [show (f + 1 : Nat) = Nat.succ f from rfl]
        simp only [parse_elementF]
        rw [parse_attributes_round (Token.SelfCloseTag :: ts) rfl as, str_ok_bind]
    | false =>
      cases fuel with
      | zero => rw [tsize_Element] at hf; simp at hf
      | succ f =>
        have hf' : csize cs ≤ f := by
          rw [tsize_Element] at hf
          simp at hf
          omega
        rw [show node_tokens (Node.Element t as cs false) ++ ts =
          Token.OpenTag :: (Token.Identifier t ::
            (attrs_tokens as ++ Token.CloseTag :: (children_tokens cs ++
              Token.EndOpenTag :: (Token.Identifier t :: (Token.CloseTag :: ts))))) from by
            rw [node_tokens_Element_false]
            simp [List.cons_append, List.append_assoc]]
        rw [show (f + 1 : Nat) = Nat.succ f from rfl]
        simp only [parse_elementF]
        rw [parse_attributes_round (Token.CloseTag :: (children_tokens cs ++
          Token.EndOpenTag :: (Token.Identifier t :: (Token.CloseTag :: ts)))) rfl as,
          str_ok_bind]
        dsimp only
        rw [parse_children_round cs hC f hf' t (Token.Identifier t :: (Token.CloseTag :: ts)),
          str_ok_bind]
        dsimp only
        rw [if_neg (by simp)]

theorem parse_children_round (cs : List Node) (hw : wf_children cs = true) :
    ∀ (fuel : Nat), csize cs ≤ fuel → ∀ (tag : Str) (ts : List Token),
      parse_childrenF fuel tag (children_tokens cs ++ Token.EndOpenTag :: ts) =
        .ok (cs, Token.EndOpenTag :: ts) := by
  cases cs with
  | nil =>
    intro fuel hf tag ts
    cases fuel with
    | zero => simp [csize] at hf
    | succ f => rfl
  | cons c cs =>
    intro fuel hf tag ts
    cases fuel with
    | zero => rw [csize_cons_eq] at hf; omega
    | succ f =>
      have hfc : tsize c ≤ f ∧ csize cs ≤ f := by
        rw [csize_cons_eq] at hf
        omega
      simp only [wf_children, Bool.and_eq_true] at hw
      rw [show children_tokens (c :: cs) ++ Token.EndOpenTag :: ts =
          node_tokens c ++ (children_tokens cs ++ Token.EndOpenTag :: ts) from by
        rw [children_tokens_cons]
        simp [List.append_assoc]]
      rw [show (f + 1 : Nat) = Nat.succ f from rfl]
      cases c with
      | Text s =>
        rw [show node_tokens (Node.Text s) ++ (children_tokens cs ++ Token.EndOpenTag :: ts) =
            Token.Identifier s :: (children_tokens cs ++ Token.EndOpenTag :: ts) from rfl]
        simp only [parse_childrenF]
        rw [parse_children_round cs hw.2 f hfc.2 tag ts, str_ok_bind]
        rfl
      | Expression s =>
        rw [show node_tokens (Node.Expression s) ++ (children_tokens cs ++ Token.EndOpenTag :: ts) =
            Token.Expression s :: (children_tokens cs ++ Token.EndOpenTag :: ts) from rfl]
        simp only [parse_childrenF]
        rw [parse_children_round cs hw.2 f hfc.2 tag ts, str_ok_bind]
        rfl
      | Element t2 as2 cs2 sc2 =>
        obtain ⟨Y, hY⟩ := node_tokens_Element_head t2 as2 cs2 sc2
        rw [show node_tokens (Node.Element t2 as2 cs2 sc2) ++
            (children_tokens cs ++ Token.EndOpenTag :: ts) =
          Token.OpenTag :: (Y ++ (children_tokens cs ++ Token.EndOpenTag :: ts)) from by
            rw [hY]; rfl]
        simp only [parse_childrenF]
        rw [show Token.OpenTag :: (Y ++ (children_tokens cs ++ Token.EndOpenTag :: ts)) =
          node_tokens (Node.Element t2 as2 cs2 sc2) ++
            (children_tokens cs ++ Token.EndOpenTag :: ts) from by
            rw [hY]; rfl]
        rw [parse_elem_round (Node.Element t2 as2 cs2 sc2) rfl hw.1 f hfc.1 _, str_ok_bind]
        dsimp only
        rw [parse_children_round cs hw.2 f hfc.2 tag ts, str_ok_bind]
        rfl

end

theorem node_tokens_length_pos (e : Node) : 1 ≤ (node_tokens e).length := by
  cases e with
  | Text s => simp [node_tokens]
  | Expression s => simp [node_tokens]
  | Element t as cs sc =>
    cases sc
    · rw [node_tokens_Element_false]; simp
    · rw [node_tokens_Element_true]; simp

mutual

theorem tsize_le (e : Node) : tsize e ≤ (node_tokens e).length := by
  cases e with
  | Text s => simp [tsize, node_tokens]
  | Expression s => simp [tsize, node_tokens]
  | Element t as cs sc =>
    rw [tsize_Element]
    cases sc
    · have h1 := csize_le cs
      rw [node_tokens_Element_false]
      simp only [List.length_cons, List.length_append, if_neg]
      simp
      omega
    · rw [node_tokens_Element_true]
      simp

theorem csize_le (cs : List Node) : csize cs ≤ (children_tokens cs).length + 1 := by
  cases cs with
  | nil => simp [csize, children_tokens]
  | cons c cs =>
    have h1 := tsize_le c
    have h2 := csize_le cs
    have h3 := node_tokens_length_pos c
    rw [csize_cons_eq, children_tokens_cons]
    simp only [List.length_append]
    omega

end

theorem parse_print (e : Node) (he : is_element_node e = true) (hw : wf_node e = true) :
    parse (print_node e) = .ok e := by
  have htok : tokenize (print_node e) = node_tokens e := by
    have h := tokenize_print_node e hw [] (by decide)
    rw [List.append_nil] at h
    rw [show tokenize ([] : List Char) = [] from rfl, List.append_nil] at h
    exact h
  have hfuel : tsize e ≤ parser_fuel (node_tokens e) := by
    have h := tsize_le e
    simp only [parser_fuel]
    omega
  have hp := parse_elem_round e he hw (parser_fuel (node_tokens e)) hfuel []
  rw [List.append_nil] at hp
  unfold parse
  rw [htok, hp]

/-- C1, the claim as stated is false: printing the element
`<a>` with the single text child `x y` gives `<a> x y</a>`, which the parser
accepts but re-reads as TWO text children `x` and `y` (the tokenizer has no
raw-text mode: each identifier-shaped word becomes its own `Identifier`
token, and the child loop turns each into a separate `Text` node), so the
reproduced tree does not preserve the child list. -/
theorem c1_counterexample :
    parse (print_node (Node.Element (str "a") [] [Node.Text (str "x y")] false)) =
      .ok (Node.Element (str "a") [] [Node.Text (str "x"), Node.Text (str "y")] false) ∧
    parse (print_node (Node.Element (str "a") [] [Node.Text (str "x y")] false)) ≠
      .ok (Node.Element (str "a") [] [Node.Text (str "x y")] false) := by
  refine ⟨rfl, fun h => ?_⟩
  have h2 : (Except.ok (Node.Element (str "a") []
        [Node.Text (str "x"), Node.Text (str "y")] false) : Except Str Node) =
      .ok (Node.Element (str "a") [] [Node.Text (str "x y")] false) := by
    rw [← h]
    exact rfl
  simp [str] at h2

/-- C1 (amended): round-trip balance holds for printable trees: for any
element with `self_closing = false` whose tag names and text children are
identifier-shaped words, whose string attribute values contain no quote or
backslash, whose expression attributes and children have balanced braces and
closed nested strings, and whose self-closing descendants have no children,
the parser accepts the printed markup `<tag attrs>children</tag>` and
reproduces exactly the original tree — same tag name, same attribute list
order and values, same child list order and kinds. -/
theorem c1_round_trip (t : Str) (as : List Attribute) (cs : List Node)
    (h : wf_node (Node.Element t as cs false) = true) :
    parse (print_node (Node.Element t as cs false)) =
      .ok (Node.Element t as cs false) :=
  parse_print _ rfl h

/-- Witness for C1 at the concrete printable element
`<a b center="c" on={click()}>hello <Widget/> {user.name}</a>`. -/
theorem c1_round_trip_witness :
    wf_node (Node.Element (str "a")
      [⟨str "b", none⟩, ⟨str "center", some (.String (str "c"))⟩,
       ⟨str "on", some (.Expression (str "click()"))⟩]
      [Node.Text (str "hello"), Node.Element (str "Widget") [] [] true,
       Node.Expression (str "user.name")] false) = true ∧
    parse (print_node (Node.Element (str "a")
      [⟨str "b", none⟩, ⟨str "center", some (.String (str "c"))⟩,
       ⟨str "on", some (.Expression (str "click()"))⟩]
      [Node.Text (str "hello"), Node.Element (str "Widget") [] [] true,
       Node.Expression (str "user.name")] false)) =
      .ok (Node.Element (str "a")
        [⟨str "b", none⟩, ⟨str "center", some (.String (str "c"))⟩,
         ⟨str "on", some (.Expression (str "click()"))⟩]
        [Node.Text (str "hello"), Node.Element (str "Widget") [] [] true,
         Node.Expression (str "user.name")] false) :=
  ⟨by decide, c1_round_trip _ _ _ (by decide)⟩

end RSML
